import Mathlib

/-!
# Topic deletion in `deletetopics.go`: codec, connection path and client path

A shallow embedding of `src/deletetopics.go`.

* Bytes are `Fin 256`; a Go `string` is its byte sequence `List Byte`.
* Go's `int16`/`int32` are `Int` values kept in range with an explicit wrap
  (`wrapInt16`, `wrapInt32`); Go's `int` (budgets, lengths) is an unbounded `Int`.
* A `*bufio.Reader` is the list of bytes still to be read; the write buffer is
  the list of bytes written so far.
* Go functions that assign through a pointer and return `(remain, err)` become
  functions returning an `Rd`: destination contents, reader position,
  remaining budget and error.
-/

namespace Kafka

/-! ## Machine integers and bytes -/

abbrev Byte := Fin 256

/-- The low eight bits of a natural number, Go's `byte(x)`. -/
def byteOf (n : Nat) : Byte := ⟨n % 256, Nat.mod_lt _ (by decide)⟩

/-- Go's conversion to `int16`: two's-complement wrap into `[-2^15, 2^15)`. -/
def wrapInt16 (x : Int) : Int := (x + 32768) % 65536 - 32768

/-- Go's conversion to `int32`: two's-complement wrap into `[-2^31, 2^31)`. -/
def wrapInt32 (x : Int) : Int := (x + 2147483648) % 4294967296 - 2147483648

/-- Values of Go type `int16`. -/
def isInt16 (x : Int) : Prop := -32768 ≤ x ∧ x < 32768

/-- Values of Go type `int32`. -/
def isInt32 (x : Int) : Prop := -2147483648 ≤ x ∧ x < 2147483648

instance (x : Int) : Decidable (isInt16 x) := by unfold isInt16; infer_instance
instance (x : Int) : Decidable (isInt32 x) := by unfold isInt32; infer_instance

/-! ## Errors -/

/-- Go `error` values that occur on the paths of `deletetopics.go`. -/
inductive GoError where
  /-- `Error(code)`: a broker status code turned into an error. -/
  | kafka (code : Int)
  /-- Truncation: the budget ran out before a value was fully read. -/
  | shortRead
  /-- Malformed: a length prefix is negative or exceeds the remaining budget. -/
  | malformed
  /-- The underlying stream ended before the requested bytes arrived. -/
  | io
  /-- A response left `n` unread bytes within its declared length. -/
  | unreadBytes (n : Int)
  /-- Any other failure, identified by its text. -/
  | other (text : String)
  /-- The result of `fmt.Errorf(label ++ "%w", cause)`. -/
  | wrapped (label : String) (cause : GoError)
  deriving DecidableEq, Repr

/-- Modelled from the spec: the conversion `Error(code)` of the error taxonomy,
whose declaration (`type Error int`) is outside `deletetopics.go`. -/
def Error (code : Int) : GoError := GoError.kafka code

/-! ## Wire primitives (the codec helpers used by `deletetopics.go`) -/

/-- Result of a read helper: the destination after the call, the reader
position after the call, the remaining budget and the error. -/
structure Rd (α : Type) where
  val : α
  rest : List Byte
  remain : Int
  err : Option GoError
  deriving DecidableEq, Repr

/-- Modelled from the spec: big-endian two-byte encoding of a signed 16-bit
integer (`writeInt16`, missing from the sources). -/
def be16 (v : Int) : List Byte :=
  let u := (v % 65536).toNat
  [byteOf (u / 256), byteOf u]

/-- Modelled from the spec: big-endian four-byte encoding of a signed 32-bit
integer (`writeInt32`, missing from the sources). -/
def be32 (v : Int) : List Byte :=
  let u := (v % 4294967296).toNat
  [byteOf (u / 16777216), byteOf (u / 65536), byteOf (u / 256), byteOf u]

/-- Modelled from the spec: `makeInt16`, the signed value of two big-endian bytes. -/
def makeInt16 (b0 b1 : Byte) : Int :=
  wrapInt16 (b0.val * 256 + b1.val)

/-- Modelled from the spec: `makeInt32`, the signed value of four big-endian bytes. -/
def makeInt32 (b0 b1 b2 b3 : Byte) : Int :=
  wrapInt32 (b0.val * 16777216 + b1.val * 65536 + b2.val * 256 + b3.val)

/-- Modelled from the spec: `writeBuffer.writeInt16`, appending the encoding. -/
def writeInt16 (wb : List Byte) (v : Int) : List Byte := wb ++ be16 v

/-- Modelled from the spec: `writeBuffer.writeInt32`, appending the encoding. -/
def writeInt32 (wb : List Byte) (v : Int) : List Byte := wb ++ be32 v

/-- Modelled from the spec: `writeBuffer.writeString`: the 16-bit length, then the bytes. -/
def writeString (wb : List Byte) (s : List Byte) : List Byte :=
  writeInt16 wb (wrapInt16 s.length) ++ s

/-- Modelled from the spec: `writeBuffer.writeArray`: the 32-bit element count,
then the elements written back-to-back by `f`, in index order. -/
def writeArray {α : Type} (wb : List Byte) (xs : List α)
    (f : List Byte → α → List Byte) : List Byte :=
  xs.foldl f (writeInt32 wb (wrapInt32 xs.length))

/-- Modelled from the spec: `readInt16`. Truncation when the budget is below two
bytes; otherwise two bytes are consumed from the cursor and the budget. -/
def readInt16 (r : List Byte) (sz : Int) (v : Int) : Rd Int :=
  if sz < 2 then ⟨v, r, sz, some GoError.shortRead⟩
  else match r with
    | b0 :: b1 :: rest => ⟨makeInt16 b0 b1, rest, sz - 2, none⟩
    | _ => ⟨v, r, sz, some GoError.io⟩

/-- Modelled from the spec: `readInt32`. Truncation when the budget is below four
bytes; otherwise four bytes are consumed from the cursor and the budget. -/
def readInt32 (r : List Byte) (sz : Int) (v : Int) : Rd Int :=
  if sz < 4 then ⟨v, r, sz, some GoError.shortRead⟩
  else match r with
    | b0 :: b1 :: b2 :: b3 :: rest => ⟨makeInt32 b0 b1 b2 b3, rest, sz - 4, none⟩
    | _ => ⟨v, r, sz, some GoError.io⟩

/-- Modelled from the spec: `readString`. A 16-bit length prefix, `-1` denoting
null (decoded as the empty string); a prefix that is otherwise negative or
exceeds the remaining budget is Malformed; then that many bytes. -/
def readString (r : List Byte) (sz : Int) (v : List Byte) : Rd (List Byte) :=
  let l := readInt16 r sz 0
  match l.err with
  | some e => ⟨v, l.rest, l.remain, some e⟩
  | none =>
    let n := l.val
    if n = -1 then ⟨[], l.rest, l.remain, none⟩
    else if n < 0 then ⟨v, l.rest, l.remain, some GoError.malformed⟩
    else if n > l.remain then ⟨v, l.rest, l.remain, some GoError.malformed⟩
    else if l.rest.length < n.toNat then ⟨v, l.rest, l.remain, some GoError.io⟩
    else ⟨l.rest.take n.toNat, l.rest.drop n.toNat, l.remain - n, none⟩

/-- The element loop of `readArrayWith`: call `cb` up to `n` times, stopping at
the first error. The state `σ` is what the callback closes over. -/
def readArrayLoop {σ : Type} (cb : σ → List Byte → Int → Rd σ) :
    Nat → σ → List Byte → Int → Rd σ
  | 0, s, r, sz => ⟨s, r, sz, none⟩
  | n + 1, s, r, sz =>
    let x := cb s r sz
    match x.err with
    | some e => ⟨x.val, x.rest, x.remain, some e⟩
    | none => readArrayLoop cb n x.val x.rest x.remain

/-- Modelled from the spec: `readArrayWith`. A 32-bit element count, `-1`
denoting a null sequence (decoded as empty); a count that is otherwise negative
or exceeds the remaining budget is Malformed; then that many elements read by
the callback back-to-back. -/
def readArrayWith {σ : Type} (r : List Byte) (sz : Int) (s : σ)
    (cb : σ → List Byte → Int → Rd σ) : Rd σ :=
  let c := readInt32 r sz 0
  match c.err with
  | some e => ⟨s, c.rest, c.remain, some e⟩
  | none =>
    let n := c.val
    if n = -1 then ⟨s, c.rest, c.remain, none⟩
    else if n < 0 then ⟨s, c.rest, c.remain, some GoError.malformed⟩
    else if n > c.remain then ⟨s, c.rest, c.remain, some GoError.malformed⟩
    else readArrayLoop cb n.toNat s c.rest c.remain

/-- Modelled from the spec: `sizeofInt16`, the encoded width of an `int16`. -/
def sizeofInt16 (_ : Int) : Int := 2

/-- Modelled from the spec: `sizeofInt32`, the encoded width of an `int32`. -/
def sizeofInt32 (_ : Int) : Int := 4

/-- Modelled from the spec: `sizeofString`, as an `int32`. -/
def sizeofString (s : List Byte) : Int := wrapInt32 (2 + wrapInt32 s.length)

/-- Modelled from the spec: `sizeofArray`: four bytes for the count plus the
sizes of the elements, accumulated in `int32` arithmetic. -/
def sizeofArray {α : Type} (xs : List α) (f : α → Int) : Int :=
  xs.foldl (fun s x => wrapInt32 (s + f x)) 4

/-- Modelled from the spec: the protocol versions `v0` and `v1` of type
`apiVersion`, declared outside `deletetopics.go`. -/
abbrev apiVersion := Int

/-- Modelled from the spec: protocol version 0. -/
def v0 : apiVersion := 0

/-- Modelled from the spec: protocol version 1. -/
def v1 : apiVersion := 1

/-- Modelled from the spec: `sizeofStringArray`, the size of a sequence of strings. -/
def sizeofStringArray (a : List (List Byte)) : Int := sizeofArray a sizeofString

/-- Modelled from the spec: `writeBuffer.writeStringArray`, a sequence of strings. -/
def writeStringArray (wb : List Byte) (a : List (List Byte)) : List Byte :=
  writeArray wb a writeString

/-! ## The request body -/

/-- The Go struct `deleteTopicsRequest`. -/
structure deleteTopicsRequest where
  Topics : List (List Byte)
  Timeout : Int
  deriving DecidableEq, Repr

/-- The method `deleteTopicsRequest.size`. -/
def deleteTopicsRequest.size (t : deleteTopicsRequest) : Int :=
  wrapInt32 (sizeofStringArray t.Topics + sizeofInt32 t.Timeout)

/-- The method `deleteTopicsRequest.writeTo`. -/
def deleteTopicsRequest.writeTo (t : deleteTopicsRequest) (wb : List Byte) : List Byte :=
  writeInt32 (writeStringArray wb t.Topics) t.Timeout

/-! ## The response body -/

/-- The Go struct `deleteTopicsResponseV0TopicErrorCode`. -/
structure deleteTopicsResponseV0TopicErrorCode where
  Topic : List Byte
  ErrorCode : Int
  deriving DecidableEq, Repr

/-- The method `deleteTopicsResponseV0TopicErrorCode.size`. -/
def deleteTopicsResponseV0TopicErrorCode.size
    (t : deleteTopicsResponseV0TopicErrorCode) : Int :=
  wrapInt32 (sizeofString t.Topic + sizeofInt16 t.ErrorCode)

/-- The method `deleteTopicsResponseV0TopicErrorCode.readFrom`. -/
def deleteTopicsResponseV0TopicErrorCode.readFrom
    (t : deleteTopicsResponseV0TopicErrorCode) (r : List Byte) (size : Int) :
    Rd deleteTopicsResponseV0TopicErrorCode :=
  let a := readString r size t.Topic
  match a.err with
  | some e => ⟨{ t with Topic := a.val }, a.rest, a.remain, some e⟩
  | none =>
    let b := readInt16 a.rest a.remain t.ErrorCode
    ⟨{ Topic := a.val, ErrorCode := b.val }, b.rest, b.remain, b.err⟩

/-- The method `deleteTopicsResponseV0TopicErrorCode.writeTo`. -/
def deleteTopicsResponseV0TopicErrorCode.writeTo
    (t : deleteTopicsResponseV0TopicErrorCode) (wb : List Byte) : List Byte :=
  writeInt16 (writeString wb t.Topic) t.ErrorCode

/-- The Go struct `deleteTopicsResponse`. -/
structure deleteTopicsResponse where
  v : apiVersion
  ThrottleTime : Int
  TopicErrorCodes : List deleteTopicsResponseV0TopicErrorCode
  deriving DecidableEq, Repr

/-- The zero value `deleteTopicsResponse{}`. -/
def deleteTopicsResponse.zero : deleteTopicsResponse :=
  { v := 0, ThrottleTime := 0, TopicErrorCodes := [] }

/-- The method `deleteTopicsResponse.size`. -/
def deleteTopicsResponse.size (t : deleteTopicsResponse) : Int :=
  let sz := sizeofArray t.TopicErrorCodes (fun e => e.size)
  if t.v ≥ v1 then wrapInt32 (sz + sizeofInt32 t.ThrottleTime) else sz

/-- The closure `fn` of `deleteTopicsResponse.readFrom`: read one item into a
fresh `item` and append it to `t.TopicErrorCodes` only when the read succeeded. -/
def deleteTopicsResponse.readItem (t : deleteTopicsResponse)
    (withReader : List Byte) (withSize : Int) : Rd deleteTopicsResponse :=
  let item : deleteTopicsResponseV0TopicErrorCode := { Topic := [], ErrorCode := 0 }
  let x := item.readFrom withReader withSize
  match x.err with
  | some e => ⟨t, x.rest, x.remain, some e⟩
  | none => ⟨{ t with TopicErrorCodes := t.TopicErrorCodes ++ [x.val] }, x.rest, x.remain, none⟩

/-- The method `deleteTopicsResponse.readFrom`. The `val` of the result is the
receiver after the call. -/
def deleteTopicsResponse.readFrom (t : deleteTopicsResponse) (r : List Byte) (size : Int) :
    Rd deleteTopicsResponse :=
  if t.v ≥ v1 then
    let a := readInt32 r size t.ThrottleTime
    match a.err with
    | some e => ⟨{ t with ThrottleTime := a.val }, a.rest, a.remain, some e⟩
    | none =>
      readArrayWith a.rest a.remain { t with ThrottleTime := a.val }
        deleteTopicsResponse.readItem
  else
    readArrayWith r size t deleteTopicsResponse.readItem

/-- The method `deleteTopicsResponse.writeTo`. -/
def deleteTopicsResponse.writeTo (t : deleteTopicsResponse) (wb : List Byte) : List Byte :=
  let wb1 := if t.v ≥ v1 then writeInt32 wb t.ThrottleTime else wb
  writeArray wb1 t.TopicErrorCodes (fun w e => e.writeTo w)

/-- Values of the Go type `deleteTopicsResponseV0TopicErrorCode`: the error
code is an `int16`. -/
def deleteTopicsResponseV0TopicErrorCode.wellTyped
    (e : deleteTopicsResponseV0TopicErrorCode) : Prop := isInt16 e.ErrorCode

/-- Values of the Go type `deleteTopicsResponse`: the version is an `int16`, the
throttle time an `int32` and every error code an `int16`. -/
def deleteTopicsResponse.wellTyped (t : deleteTopicsResponse) : Prop :=
  isInt16 t.v ∧ isInt32 t.ThrottleTime ∧ ∀ e ∈ t.TopicErrorCodes, e.wellTyped

instance (e : deleteTopicsResponseV0TopicErrorCode) : Decidable e.wellTyped := by
  unfold deleteTopicsResponseV0TopicErrorCode.wellTyped; infer_instance

instance (t : deleteTopicsResponse) : Decidable t.wellTyped := by
  unfold deleteTopicsResponse.wellTyped; infer_instance

/-! ## The client path: `Client.DeleteTopics` -/

/-- A Go `map[string]error` as a list of key/value pairs with distinct keys; a
`nil` error is `none`. -/
abbrev ErrorMap := List (List Byte × Option GoError)

/-- The assignment `m[k] = x`: replace the entry of `k`, or add one. -/
def ErrorMap.set (m : ErrorMap) (k : List Byte) (x : Option GoError) : ErrorMap :=
  m.filter (fun p => p.1 ≠ k) ++ [(k, x)]

/-- The lookup `m[k]` with its presence flag: `none` when `k` is not a key. -/
def ErrorMap.get? (m : ErrorMap) (k : List Byte) : Option (Option GoError) :=
  (m.find? (fun p => p.1 = k)).map (fun p => p.2)

/-- The keys of the map. -/
def ErrorMap.keys (m : ErrorMap) : List (List Byte) := m.map (fun p => p.1)

/-- The Go struct `DeleteTopicsRequest`; the broker address is kept as text. -/
structure DeleteTopicsRequest where
  Addr : String
  Topics : List (List Byte)
  deriving DecidableEq, Repr

/-- The Go struct `DeleteTopicsResponse`; `Throttle` is a `time.Duration` in
nanoseconds. -/
structure DeleteTopicsResponse where
  Throttle : Int
  Errors : ErrorMap
  deriving DecidableEq, Repr

/-- Modelled from the spec: the message `deletetopics.Request` of the protocol
package, of which `Client.DeleteTopics` fills `TopicNames` and `TimeoutMs`. -/
structure ProtocolRequest where
  TopicNames : List (List Byte)
  TimeoutMs : Int
  deriving DecidableEq, Repr

/-- Modelled from the spec: one (item identifier, status code) pair of the
message `deletetopics.Response` of the protocol package. -/
structure ResponseTopic where
  Name : List Byte
  ErrorCode : Int
  deriving DecidableEq, Repr

/-- Modelled from the spec: the message `deletetopics.Response` of the protocol
package, of which `Client.DeleteTopics` reads `ThrottleTimeMs` and `Responses`. -/
structure ProtocolResponse where
  ThrottleTimeMs : Int
  Responses : List ResponseTopic
  deriving DecidableEq, Repr

/-- Modelled from the spec: `makeDuration`, milliseconds as a `time.Duration`. -/
def makeDuration (ms : Int) : Int := ms * 1000000

/-- What `Client.DeleteTopics` uses of its receiver: the outcome of
`c.roundTrip` for an address and a request, and the value of `c.timeoutMs`. -/
structure Client where
  roundTrip : String → ProtocolRequest → Except GoError ProtocolResponse
  timeoutMs : Int

/-- The loop of `Client.DeleteTopics` over `res.Responses`, filling the map. -/
def fillErrors : List ResponseTopic → ErrorMap → ErrorMap
  | [], m => m
  | t :: ts, m =>
    if t.ErrorCode = 0 then fillErrors ts (m.set t.Name none)
    else fillErrors ts (m.set t.Name (some (Error t.ErrorCode)))

/-- The method `Client.DeleteTopics`: the returned pointer (`none` is `nil`) and
the returned error (`none` is `nil`). -/
def Client.DeleteTopics (c : Client) (req : DeleteTopicsRequest) :
    Option DeleteTopicsResponse × Option GoError :=
  match c.roundTrip req.Addr { TopicNames := req.Topics, TimeoutMs := c.timeoutMs } with
  | .error err => (none, some (GoError.wrapped "kafka.(*Client).DeleteTopics: " err))
  | .ok res =>
    let ret : DeleteTopicsResponse :=
      { Throttle := makeDuration res.ThrottleTimeMs, Errors := [] }
    (some { ret with Errors := fillErrors res.Responses ret.Errors }, none)

/-! ## The connection path: `Conn.deleteTopics` -/

/-- A `time.Time` in nanoseconds; `none` is the zero time (no deadline). -/
abbrev Time := Option Int

/-- Modelled from the spec: `adjustDeadlineForRTT`. The deadline is the
caller-supplied one or, if absent, the round-trip-time estimate added to now. -/
def adjustDeadlineForRTT (deadline : Time) (now : Int) (rtt : Int) : Time :=
  match deadline with
  | some d => some d
  | none => some (now + rtt)

/-- Modelled from the spec: `deadlineToTimeout`. The time left until the
deadline, the elapsed time subtracted, floored at zero. -/
def deadlineToTimeout (deadline : Time) (now : Int) : Int :=
  match deadline with
  | some d => max 0 (d - now)
  | none => 0

/-- Modelled from the spec: `milliseconds`, a duration converted to whole
milliseconds as an `int32`. -/
def milliseconds (d : Int) : Int := wrapInt32 (d / 1000000)

/-- Modelled from the spec: `expectZeroSize`. After decoding, unconsumed bytes
within the declared length are an error. -/
def expectZeroSize (sz : Int) (err : Option GoError) : Option GoError :=
  match err with
  | some e => some e
  | none => if sz ≠ 0 then some (GoError.unreadBytes sz) else none

/-- What `Conn.deleteTopics` uses of its receiver and its surroundings: the
outcome of version negotiation, the deadline and correlation id handed to the
write closure, the clock, the round-trip-time constant, the outcome of
`writeRequest`, and the response frame that arrives (declared size and the
bytes in `c.rbuf`) or the failure to receive one. -/
structure Conn where
  negotiateVersion : Except GoError apiVersion
  deadline : Time
  id : Int
  now : Int
  defaultRTT : Int
  writeRequest : apiVersion → Int → deleteTopicsRequest → Option GoError
  waitResponse : Except GoError (Int × List Byte)

/-- The variables the two closures of `Conn.deleteTopics` share: the captured
`request` and `response`, and the argument of the `writeRequest` call made. -/
structure Exchange where
  request : deleteTopicsRequest
  response : deleteTopicsResponse
  sent : Option deleteTopicsRequest

/-- The write closure of `Conn.deleteTopics`. -/
def Conn.writePhase (c : Conn) (version : apiVersion) (x : Exchange)
    (deadline : Time) (id : Int) : Exchange × Option GoError :=
  let request :=
    if x.request.Timeout = 0 then
      let now := c.now
      let deadline1 := adjustDeadlineForRTT deadline now c.defaultRTT
      { x.request with Timeout := milliseconds (deadlineToTimeout deadline1 now) }
    else x.request
  ({ x with request := request, sent := some request }, c.writeRequest version id request)

/-- The read closure of `Conn.deleteTopics`. -/
def Conn.readPhase (rbuf : List Byte) (x : Exchange) (size : Int) :
    Exchange × Option GoError :=
  let r := x.response.readFrom rbuf size
  ({ x with response := r.val }, expectZeroSize r.remain r.err)

/-- Modelled from the spec: `Conn.writeOperation`. Run the write closure; when
it succeeds wait for the response frame; when that arrives run the read
closure on its declared size. -/
def Conn.writeOperation (c : Conn) (x : Exchange)
    (write : Exchange → Time → Int → Exchange × Option GoError)
    (read : List Byte → Exchange → Int → Exchange × Option GoError) :
    Exchange × Option GoError :=
  let w := write x c.deadline c.id
  match w.2 with
  | some e => (w.1, some e)
  | none =>
    match c.waitResponse with
    | .error e => (w.1, some e)
    | .ok (size, rbuf) => read rbuf w.1 size

/-- The final loop of `Conn.deleteTopics`: the error of the first item whose
code is not zero. -/
def firstError : List deleteTopicsResponseV0TopicErrorCode → Option GoError
  | [] => none
  | c :: cs => if c.ErrorCode ≠ 0 then some (Error c.ErrorCode) else firstError cs

/-- What a call of `Conn.deleteTopics` produces: the returned response and
error, and the request handed to `writeRequest`, if one was. -/
structure ConnResult where
  response : deleteTopicsResponse
  err : Option GoError
  sent : Option deleteTopicsRequest

/-- The method `Conn.deleteTopics`. -/
def Conn.deleteTopics (c : Conn) (request : deleteTopicsRequest) : ConnResult :=
  match c.negotiateVersion with
  | .error err => ⟨deleteTopicsResponse.zero, some err, none⟩
  | .ok version =>
    let response : deleteTopicsResponse :=
      { v := version, ThrottleTime := 0, TopicErrorCodes := [] }
    let x := c.writeOperation ⟨request, response, none⟩ (c.writePhase version) Conn.readPhase
    match x.2 with
    | some err => ⟨deleteTopicsResponse.zero, some err, x.1.sent⟩
    | none =>
      match firstError x.1.response.TopicErrorCodes with
      | some e => ⟨x.1.response, some e, x.1.sent⟩
      | none => ⟨x.1.response, none, x.1.sent⟩

/-! ## Layouts used to state the codec properties -/

/-- The bytes `writeTo` produces for one response item: name length, name
bytes, error code. -/
def itemBytes (e : deleteTopicsResponseV0TopicErrorCode) : List Byte :=
  be16 (wrapInt16 e.Topic.length) ++ e.Topic ++ be16 e.ErrorCode

/-- The bytes of a list of response items, back-to-back in list order. -/
def itemsBytes : List deleteTopicsResponseV0TopicErrorCode → List Byte
  | [] => []
  | e :: es => itemBytes e ++ itemsBytes es

/-- The `w` low-order base-256 digits of `x` in two's complement, most
significant digit first: a signed big-endian integer of `w` bytes. -/
def bigEndian : Nat → Int → List Byte
  | 0, _ => []
  | w + 1, x => bigEndian w (x / 256) ++ [byteOf (x % 256).toNat]

/-- The response body as the spec words it: at version 1 or above the
four-byte throttle time, then the four-byte item count, then for each item in
order the two-byte name length, the name bytes and the two-byte status code;
version 0 omits the throttle time. -/
def specResponseBody (t : deleteTopicsResponse) : List Byte :=
  (if t.v ≥ 1 then bigEndian 4 t.ThrottleTime else [])
    ++ bigEndian 4 t.TopicErrorCodes.length
    ++ (t.TopicErrorCodes.map fun e =>
          bigEndian 2 e.Topic.length ++ e.Topic ++ bigEndian 2 e.ErrorCode).flatten

/-- A fresh `deleteTopicsResponse{v: version}`, as `Conn.deleteTopics` builds it. -/
def deleteTopicsResponse.fresh (version : apiVersion) : deleteTopicsResponse :=
  { v := version, ThrottleTime := 0, TopicErrorCodes := [] }

/-! ## Concrete values used as witnesses -/

/-- The topic name `t1` as bytes. -/
def topicT1 : List Byte := [116, 49]

/-- The topic name `t2` as bytes. -/
def topicT2 : List Byte := [116, 50]

/-- A version-1 response: throttle 100 ms, `t1` deleted, `t2` failing with code 3. -/
def sampleResponseV1 : deleteTopicsResponse :=
  { v := 1, ThrottleTime := 100,
    TopicErrorCodes := [{ Topic := topicT1, ErrorCode := 0 }, { Topic := topicT2, ErrorCode := 3 }] }

/-- A version-0 response with one item: the empty topic name with code 0. -/
def sampleResponseV0 : deleteTopicsResponse :=
  { v := 0, ThrottleTime := 0, TopicErrorCodes := [{ Topic := [], ErrorCode := 0 }] }

/-- A client whose round trip always succeeds with the response `res`. -/
def clientAnswering (res : ProtocolResponse) : Client :=
  { roundTrip := fun _ _ => .ok res, timeoutMs := 0 }

/-- A client whose round trip always fails with the error `e`. -/
def clientFailing (e : GoError) : Client :=
  { roundTrip := fun _ _ => .error e, timeoutMs := 0 }

/-- The broker answer of the spec's scenario: `t1` with code 0, `t2` with code 3. -/
def sampleAnswer : ProtocolResponse :=
  { ThrottleTimeMs := 0,
    Responses := [{ Name := topicT1, ErrorCode := 0 }, { Name := topicT2, ErrorCode := 3 }] }

/-- A request to delete `t1` and `t2`. -/
def sampleDelete : DeleteTopicsRequest := { Addr := "broker:9092", Topics := [topicT1, topicT2] }

/-- A broker answer that carries no item at all. -/
def emptyAnswer : ProtocolResponse := { ThrottleTimeMs := 0, Responses := [] }

/-- A connection that negotiates `version`, has the deadline `deadline`, whose
clock reads 0, whose round-trip-time constant is one second, whose writes
succeed and on which the frame `answer` arrives. -/
def sampleConn (version : apiVersion) (deadline : Time)
    (answer : Except GoError (Int × List Byte)) : Conn :=
  { negotiateVersion := .ok version, deadline := deadline, id := 1, now := 0,
    defaultRTT := 1000000000, writeRequest := fun _ _ _ => none, waitResponse := answer }

/-- A request to delete `t1` that leaves `Timeout` at zero. -/
def sampleRequestZero : deleteTopicsRequest := { Topics := [topicT1], Timeout := 0 }

/-- A request to delete `t1` with the negative timeout `-1`. -/
def sampleRequestNegative : deleteTopicsRequest := { Topics := [topicT1], Timeout := -1 }

/-- The frame carrying the version-1 sample response: 20 bytes declared, 20 bytes present. -/
def sampleFrameV1 : Except GoError (Int × List Byte) := .ok (20, sampleResponseV1.writeTo [])

/-- A frame declaring 21 bytes: the version-1 sample response and one byte more. -/
def sampleFrameTrailing : Except GoError (Int × List Byte) :=
  .ok (21, sampleResponseV1.writeTo [] ++ [0])

/-- A length prefix `n` that the spec calls malformed, given the budget that
remains after the prefix: negative other than the null sentinel `-1`, or larger
than what remains. -/
def malformedPrefix (n remaining : Int) : Prop := (n < 0 ∧ n ≠ -1) ∨ n > remaining

instance (n remaining : Int) : Decidable (malformedPrefix n remaining) := by
  unfold malformedPrefix; infer_instance

/-- Version-0 bytes whose element count is `-2`. -/
def sampleBadCount : List Byte := [255, 255, 255, 254]

/-- Version-0 bytes announcing two items: `t1` with code 0, then an item whose
name length prefix is 32767 although nothing follows it. -/
def sampleBadName : List Byte := [0, 0, 0, 2, 0, 2, 116, 49, 0, 0, 127, 255]

/-- The bytes `writeStringArray` produces after the count: each string as its
length and its bytes, back-to-back in list order. -/
def stringsBytes : List (List Byte) → List Byte
  | [] => []
  | s :: a => be16 (wrapInt16 s.length) ++ s ++ stringsBytes a

/-- The request body as the spec words it: the sequence of topic names (a
four-byte count, then each name as a two-byte length and its bytes, in order)
followed by the four-byte timeout in milliseconds. -/
def specRequestBody (t : deleteTopicsRequest) : List Byte :=
  bigEndian 4 t.Topics.length
    ++ (t.Topics.map fun s => bigEndian 2 s.length ++ s).flatten
    ++ bigEndian 4 t.Timeout

/-- An entry whose topic name has the largest length a two-byte prefix can
carry, 32767 zero bytes, with code 0. -/
def bigEntry : deleteTopicsResponseV0TopicErrorCode :=
  { Topic := List.replicate 32767 0, ErrorCode := 0 }

/-- A version-0 response of 65537 such entries; its encoding has
`4 + 65537 * 32771 = 2147713031` bytes, more than `2^31`. -/
def bigResponse : deleteTopicsResponse :=
  { v := 0, ThrottleTime := 0, TopicErrorCodes := List.replicate 65537 bigEntry }

/-- A request to delete `t1` and `t2` with a timeout of five seconds. -/
def samplePositive : deleteTopicsRequest := { Topics := [topicT1, topicT2], Timeout := 5000 }

/-- A broker answer that names `t1` twice: code 3 first, code 0 last. -/
def sampleAnswerRepeated : ProtocolResponse :=
  { ThrottleTimeMs := 0,
    Responses := [{ Name := topicT1, ErrorCode := 3 }, { Name := topicT2, ErrorCode := 0 },
      { Name := topicT1, ErrorCode := 0 }] }

/-- The items of the version-1 sample as a version-0 response. -/
def sampleNamedV0 : deleteTopicsResponse :=
  { v := 0, ThrottleTime := 0,
    TopicErrorCodes := [{ Topic := topicT1, ErrorCode := 0 }, { Topic := topicT2, ErrorCode := 3 }] }

/-! # Theorems -/

/-! ## Wire primitives -/

theorem wrapInt16_of_isInt16 (x : Int) (h : isInt16 x) : wrapInt16 x = x := by
  unfold isInt16 at h; unfold wrapInt16; omega

theorem wrapInt32_of_isInt32 (x : Int) (h : isInt32 x) : wrapInt32 x = x := by
  unfold isInt32 at h; unfold wrapInt32; omega

theorem readInt16_be16 (v : Int) (hv : isInt16 v) (rest : List Byte) (sz d : Int)
    (hsz : 2 ≤ sz) : readInt16 (be16 v ++ rest) sz d = ⟨v, rest, sz - 2, none⟩ := by
  have h : makeInt16 (byteOf ((v % 65536).toNat / 256)) (byteOf (v % 65536).toNat) = v := by
    unfold isInt16 at hv
    simp only [makeInt16, byteOf, wrapInt16]
    omega
  have hlt : ¬ sz < 2 := by omega
  simp [readInt16, be16, hlt, h]

theorem readInt32_be32 (v : Int) (hv : isInt32 v) (rest : List Byte) (sz d : Int)
    (hsz : 4 ≤ sz) : readInt32 (be32 v ++ rest) sz d = ⟨v, rest, sz - 4, none⟩ := by
  have h : makeInt32 (byteOf ((v % 4294967296).toNat / 16777216))
      (byteOf ((v % 4294967296).toNat / 65536)) (byteOf ((v % 4294967296).toNat / 256))
      (byteOf (v % 4294967296).toNat) = v := by
    unfold isInt32 at hv
    simp only [makeInt32, byteOf, wrapInt32]
    omega
  have hlt : ¬ sz < 4 := by omega
  simp [readInt32, be32, hlt, h]

theorem readString_string (s rest d : List Byte) (sz : Int) (hs : s.length ≤ 32767)
    (hsz : 2 + (s.length : Int) ≤ sz) :
    readString (be16 (wrapInt16 s.length) ++ s ++ rest) sz d
      = ⟨s, rest, sz - 2 - s.length, none⟩ := by
  have h16 : isInt16 (s.length : Int) := by unfold isInt16; omega
  have hw : wrapInt16 (s.length : Int) = s.length := wrapInt16_of_isInt16 _ h16
  have hr := readInt16_be16 (s.length : Int) h16 (s ++ rest) sz 0 (by omega)
  rw [hw]
  unfold readString
  rw [List.append_assoc, hr]
  have h1 : ¬ ((s.length : Int) = -1) := by omega
  have h2 : ¬ ((s.length : Int) < 0) := by omega
  have h3 : ¬ ((s.length : Int) > sz - 2) := by omega
  simp [h1, h2, h3]

theorem be16_length (v : Int) : (be16 v).length = 2 := rfl

theorem be32_length (v : Int) : (be32 v).length = 4 := rfl

theorem itemBytes_length (e : deleteTopicsResponseV0TopicErrorCode) :
    (itemBytes e).length = 4 + e.Topic.length := by
  simp [itemBytes, be16_length]; omega

/-! ## Writers append -/

theorem item_writeTo_eq (e : deleteTopicsResponseV0TopicErrorCode) (wb : List Byte) :
    e.writeTo wb = wb ++ itemBytes e := by
  simp [deleteTopicsResponseV0TopicErrorCode.writeTo, writeInt16, writeString, itemBytes]

theorem foldl_item_writeTo (es : List deleteTopicsResponseV0TopicErrorCode) (wb : List Byte) :
    es.foldl (fun w e => e.writeTo w) wb = wb ++ itemsBytes es := by
  induction es generalizing wb with
  | nil => simp [itemsBytes]
  | cons e es ih => rw [List.foldl_cons, ih, item_writeTo_eq, itemsBytes, List.append_assoc]

theorem response_writeTo_eq (t : deleteTopicsResponse) (wb : List Byte) :
    t.writeTo wb = wb ++ (if t.v ≥ v1 then be32 t.ThrottleTime else [])
      ++ be32 (wrapInt32 t.TopicErrorCodes.length) ++ itemsBytes t.TopicErrorCodes := by
  unfold deleteTopicsResponse.writeTo writeArray
  rw [foldl_item_writeTo]
  split <;> simp [writeInt32]

/-! ## Reading back what was written -/

theorem item_readFrom_itemBytes (e d : deleteTopicsResponseV0TopicErrorCode)
    (rest : List Byte) (sz : Int) (hty : e.wellTyped) (hs : e.Topic.length ≤ 32767)
    (hsz : 4 + (e.Topic.length : Int) ≤ sz) :
    d.readFrom (itemBytes e ++ rest) sz = ⟨e, rest, sz - (4 + e.Topic.length), none⟩ := by
  unfold deleteTopicsResponseV0TopicErrorCode.readFrom itemBytes
  have h1 := readString_string e.Topic (be16 e.ErrorCode ++ rest) d.Topic sz hs (by omega)
  have h2 := readInt16_be16 e.ErrorCode hty rest (sz - 2 - e.Topic.length) d.ErrorCode (by omega)
  rw [List.append_assoc, h1]
  simp only [h2]
  congr 1
  omega

theorem readItem_itemBytes (t : deleteTopicsResponse) (e : deleteTopicsResponseV0TopicErrorCode)
    (rest : List Byte) (sz : Int) (hty : e.wellTyped) (hs : e.Topic.length ≤ 32767)
    (hsz : 4 + (e.Topic.length : Int) ≤ sz) :
    t.readItem (itemBytes e ++ rest) sz
      = ⟨{ t with TopicErrorCodes := t.TopicErrorCodes ++ [e] }, rest,
          sz - (4 + e.Topic.length), none⟩ := by
  unfold deleteTopicsResponse.readItem
  simp only [item_readFrom_itemBytes e _ rest sz hty hs hsz]

theorem readArrayLoop_itemsBytes (es : List deleteTopicsResponseV0TopicErrorCode)
    (t : deleteTopicsResponse) (rest : List Byte) (sz : Int)
    (hty : ∀ e ∈ es, e.wellTyped) (hs : ∀ e ∈ es, e.Topic.length ≤ 32767)
    (hsz : ((itemsBytes es).length : Int) ≤ sz) :
    readArrayLoop deleteTopicsResponse.readItem es.length t (itemsBytes es ++ rest) sz
      = ⟨{ t with TopicErrorCodes := t.TopicErrorCodes ++ es }, rest,
          sz - (itemsBytes es).length, none⟩ := by
  induction es generalizing t sz with
  | nil => simp [readArrayLoop, itemsBytes]
  | cons e es ih =>
    have hl : ((itemsBytes (e :: es)).length : Int)
        = 4 + e.Topic.length + (itemsBytes es).length := by
      simp [itemsBytes, itemBytes_length]
    rw [hl] at hsz
    have he := readItem_itemBytes t e (itemsBytes es ++ rest) sz
      (hty e (List.mem_cons_self _ _)) (hs e (List.mem_cons_self _ _)) (by omega)
    simp only [List.length_cons, readArrayLoop, itemsBytes, List.append_assoc, he]
    rw [ih _ _ (fun x hx => hty x (List.mem_cons_of_mem _ hx))
      (fun x hx => hs x (List.mem_cons_of_mem _ hx)) (by omega)]
    simp only [List.append_assoc, List.singleton_append]
    congr 1
    rw [List.length_append, itemBytes_length]
    push_cast
    omega

theorem itemsBytes_length_ge (es : List deleteTopicsResponseV0TopicErrorCode) :
    (es.length : Int) ≤ (itemsBytes es).length := by
  induction es with
  | nil => simp [itemsBytes]
  | cons e es ih =>
    simp only [itemsBytes, List.length_cons, List.length_append, itemBytes_length]
    push_cast
    omega

theorem readArrayWith_itemsBytes (es : List deleteTopicsResponseV0TopicErrorCode)
    (t : deleteTopicsResponse) (rest : List Byte) (sz : Int)
    (hn : es.length < 2147483648)
    (hty : ∀ e ∈ es, e.wellTyped) (hs : ∀ e ∈ es, e.Topic.length ≤ 32767)
    (hsz : 4 + ((itemsBytes es).length : Int) ≤ sz) :
    readArrayWith (be32 (wrapInt32 es.length) ++ itemsBytes es ++ rest) sz t
        deleteTopicsResponse.readItem
      = ⟨{ t with TopicErrorCodes := t.TopicErrorCodes ++ es }, rest,
          sz - 4 - (itemsBytes es).length, none⟩ := by
  have h32 : isInt32 (es.length : Int) := by unfold isInt32; omega
  have hc := readInt32_be32 (es.length : Int) h32 (itemsBytes es ++ rest) sz 0 (by omega)
  have hge := itemsBytes_length_ge es
  unfold readArrayWith
  rw [wrapInt32_of_isInt32 _ h32, List.append_assoc, hc]
  have h1 : ¬ ((es.length : Int) = -1) := by omega
  have h2 : ¬ ((es.length : Int) < 0) := by omega
  have h3 : ¬ ((es.length : Int) > sz - 4) := by omega
  simp only [h1, h2, h3, if_false, Int.toNat_ofNat]
  exact readArrayLoop_itemsBytes es t rest (sz - 4) hty hs (by omega)

theorem readFrom_writeTo_general (t d : deleteTopicsResponse) (rest : List Byte) (sz : Int)
    (hd : d.v = t.v) (hty : t.wellTyped)
    (hn : t.TopicErrorCodes.length < 2147483648)
    (hs : ∀ e ∈ t.TopicErrorCodes, e.Topic.length ≤ 32767)
    (hsz : ((t.writeTo []).length : Int) ≤ sz) :
    d.readFrom (t.writeTo [] ++ rest) sz
      = ⟨{ v := t.v, ThrottleTime := if t.v ≥ v1 then t.ThrottleTime else d.ThrottleTime,
           TopicErrorCodes := d.TopicErrorCodes ++ t.TopicErrorCodes },
          rest, sz - (t.writeTo []).length, none⟩ := by
  obtain ⟨_, hthr, hitems⟩ := hty
  rw [response_writeTo_eq] at hsz ⊢
  unfold deleteTopicsResponse.readFrom
  rw [hd]
  by_cases hv : t.v ≥ v1
  · simp only [hv, if_true, List.nil_append, List.length_append, be32_length] at hsz ⊢
    push_cast at hsz
    have ht := readInt32_be32 t.ThrottleTime hthr
      (be32 (wrapInt32 t.TopicErrorCodes.length) ++ itemsBytes t.TopicErrorCodes ++ rest)
      sz d.ThrottleTime (by omega)
    simp only [List.append_assoc] at ht ⊢
    simp only [ht]
    have := readArrayWith_itemsBytes t.TopicErrorCodes
      { d with ThrottleTime := t.ThrottleTime } rest (sz - 4) hn hitems hs (by omega)
    simp only [List.append_assoc] at this
    rw [hd] at this
    rw [this]
    congr 1
    push_cast
    omega
  · simp only [hv, if_false, List.nil_append, List.append_nil, List.length_append,
      be32_length] at hsz ⊢
    push_cast at hsz
    have := readArrayWith_itemsBytes t.TopicErrorCodes d rest sz hn hitems hs (by omega)
    rw [this, hd]
    congr 1
    push_cast
    omega

/-! ## Layout -/

theorem bigEndian_two (x : Int) : bigEndian 2 x = be16 x := by
  simp only [bigEndian, be16, byteOf, List.nil_append, List.cons_append, List.cons.injEq,
    Fin.mk.injEq, and_true]
  constructor <;> omega

theorem bigEndian_four (x : Int) : bigEndian 4 x = be32 x := by
  simp only [bigEndian, be32, byteOf, List.nil_append, List.cons_append, List.cons.injEq,
    Fin.mk.injEq, and_true]
  refine ⟨?_, ?_, ?_, ?_⟩ <;> omega

theorem be16_wrapInt16 (x : Int) : be16 (wrapInt16 x) = be16 x := by
  simp only [be16, wrapInt16, byteOf, List.cons.injEq, Fin.mk.injEq, and_true]
  constructor <;> omega

theorem be32_wrapInt32 (x : Int) : be32 (wrapInt32 x) = be32 x := by
  simp only [be32, wrapInt32, byteOf, List.cons.injEq, Fin.mk.injEq, and_true]
  refine ⟨?_, ?_, ?_, ?_⟩ <;> omega

theorem itemsBytes_eq_flatten (es : List deleteTopicsResponseV0TopicErrorCode) :
    itemsBytes es = (es.map fun e =>
      bigEndian 2 e.Topic.length ++ e.Topic ++ bigEndian 2 e.ErrorCode).flatten := by
  induction es with
  | nil => rfl
  | cons e es ih =>
    simp only [itemsBytes, itemBytes, List.map_cons, List.flatten_cons, ih, bigEndian_two,
      be16_wrapInt16]

theorem sampleResponseV1_bytes :
    sampleResponseV1.writeTo []
      = [0, 0, 0, 100, 0, 0, 0, 2, 0, 2, 116, 49, 0, 0, 0, 2, 116, 50, 0, 3] ∧
    specResponseBody sampleResponseV1
      = [0, 0, 0, 100, 0, 0, 0, 2, 0, 2, 116, 49, 0, 0, 0, 2, 116, 50, 0, 3] := by
  decide

/-! ## Sizes -/

theorem item_size_eq (e : deleteTopicsResponseV0TopicErrorCode)
    (h : 4 + (e.Topic.length : Int) < 2147483648) : e.size = 4 + e.Topic.length := by
  simp only [deleteTopicsResponseV0TopicErrorCode.size, sizeofString, sizeofInt16, wrapInt32]
  omega

theorem sizeofArray_foldl (es : List deleteTopicsResponseV0TopicErrorCode) (a : Int)
    (ha : 0 ≤ a) (h : a + ((itemsBytes es).length : Int) < 2147483648) :
    es.foldl (fun s x => wrapInt32 (s + x.size)) a = a + (itemsBytes es).length := by
  induction es generalizing a with
  | nil => simp [itemsBytes]
  | cons e es ih =>
    have hl : ((itemsBytes (e :: es)).length : Int)
        = 4 + e.Topic.length + (itemsBytes es).length := by
      simp [itemsBytes, itemBytes_length]
    rw [hl] at h ⊢
    have he := item_size_eq e (by omega)
    have hw : wrapInt32 (a + e.size) = a + (4 + e.Topic.length) := by
      rw [he]; exact wrapInt32_of_isInt32 _ (by unfold isInt32; omega)
    rw [List.foldl_cons, hw, ih _ (by omega) (by omega)]
    omega

/-! ## The claims on the response codec -/

/-- C1: round trip of the response codec. For every response (of any version,
in particular `v0` and `v1`) with fewer than 2^31 items and topic names of at
most 32767 bytes, `readFrom` on a fresh response of the same version over the
bytes `writeTo` produced, with the number of bytes written as budget, returns
no error and `remain = 0`, consumes all the bytes, and yields the same items in
the same order and, at `v1` or above, the same throttle time. -/
theorem readFrom_writeTo_roundtrip (t : deleteTopicsResponse) (hty : t.wellTyped)
    (hn : t.TopicErrorCodes.length < 2147483648)
    (hs : ∀ e ∈ t.TopicErrorCodes, e.Topic.length ≤ 32767) :
    ((deleteTopicsResponse.fresh t.v).readFrom (t.writeTo []) (t.writeTo []).length).err = none ∧
    ((deleteTopicsResponse.fresh t.v).readFrom (t.writeTo []) (t.writeTo []).length).remain = 0 ∧
    ((deleteTopicsResponse.fresh t.v).readFrom (t.writeTo []) (t.writeTo []).length).rest = [] ∧
    ((deleteTopicsResponse.fresh t.v).readFrom (t.writeTo []) (t.writeTo []).length).val.TopicErrorCodes
      = t.TopicErrorCodes ∧
    (t.v ≥ v1 →
      ((deleteTopicsResponse.fresh t.v).readFrom (t.writeTo []) (t.writeTo []).length).val.ThrottleTime
        = t.ThrottleTime) := by
  have h := readFrom_writeTo_general t (deleteTopicsResponse.fresh t.v) [] (t.writeTo []).length
    rfl hty hn hs (le_refl _)
  rw [List.append_nil] at h
  rw [h]
  refine ⟨rfl, by simp, rfl, by simp [deleteTopicsResponse.fresh], ?_⟩
  intro hv
  simp [hv]

theorem sampleResponseV1_wellTyped : sampleResponseV1.wellTyped := by
  decide

/-- Witness of C1 on the version-1 sample response, whose encoding has 20 bytes. -/
theorem readFrom_writeTo_roundtrip_witness :
    sampleResponseV1.wellTyped ∧
    sampleResponseV1.TopicErrorCodes.length < 2147483648 ∧
    (∀ e ∈ sampleResponseV1.TopicErrorCodes, e.Topic.length ≤ 32767) ∧
    ((deleteTopicsResponse.fresh 1).readFrom (sampleResponseV1.writeTo []) 20).err = none ∧
    ((deleteTopicsResponse.fresh 1).readFrom (sampleResponseV1.writeTo []) 20).remain = 0 ∧
    ((deleteTopicsResponse.fresh 1).readFrom (sampleResponseV1.writeTo []) 20).rest = [] ∧
    ((deleteTopicsResponse.fresh 1).readFrom (sampleResponseV1.writeTo []) 20).val.TopicErrorCodes
      = sampleResponseV1.TopicErrorCodes ∧
    ((1 : Int) ≥ v1 →
      ((deleteTopicsResponse.fresh 1).readFrom (sampleResponseV1.writeTo []) 20).val.ThrottleTime
        = 100) :=
  ⟨sampleResponseV1_wellTyped, by decide, by simp [sampleResponseV1, topicT1, topicT2],
    readFrom_writeTo_roundtrip sampleResponseV1 sampleResponseV1_wellTyped (by decide)
      (by simp [sampleResponseV1, topicT1, topicT2])⟩

/-- C2: size agrees with encoding. For every response whose encoding is shorter
than 2^31 bytes, `size` is exactly the number of bytes `writeTo` appends to the
write buffer, and the four bytes of the throttle time are counted exactly when
`v >= v1`, as `writeTo` writes them. -/
theorem response_size_eq_written (t : deleteTopicsResponse) (wb : List Byte)
    (hlen : ((t.writeTo []).length : Int) < 2147483648) :
    t.size = ((t.writeTo wb).length : Int) - wb.length ∧
    t.size = (if t.v ≥ v1 then 4 else 0) + (4 + ((itemsBytes t.TopicErrorCodes).length : Int)) ∧
    ((t.writeTo wb).length : Int) - wb.length
      = (if t.v ≥ v1 then 4 else 0) + (4 + ((itemsBytes t.TopicErrorCodes).length : Int)) := by
  rw [response_writeTo_eq] at hlen
  rw [response_writeTo_eq]
  unfold deleteTopicsResponse.size sizeofArray sizeofInt32
  by_cases hv : t.v ≥ v1
  · simp only [hv, if_true, List.nil_append, List.length_append, be32_length] at hlen ⊢
    push_cast at hlen ⊢
    rw [sizeofArray_foldl _ 4 (by omega) (by omega)]
    rw [wrapInt32_of_isInt32 _ (by unfold isInt32; omega)]
    omega
  · simp only [hv, if_false, List.nil_append, List.append_nil, List.length_append,
      be32_length] at hlen ⊢
    push_cast at hlen ⊢
    rw [sizeofArray_foldl _ 4 (by omega) (by omega)]
    omega

/-- Witness of C2: the version-1 sample response has size 20 and 20 bytes are written. -/
theorem response_size_eq_written_witness :
    ((sampleResponseV1.writeTo []).length : Int) < 2147483648 ∧
    sampleResponseV1.size = 20 ∧ (sampleResponseV1.writeTo []).length = 20 :=
  ⟨by decide,
    (response_size_eq_written sampleResponseV1 [] (by decide)).1.trans (by decide),
    by decide⟩

/-- C3: byte-exact response layout. For every response, `writeTo` appends to the
write buffer exactly the body the spec describes: big-endian and in this order,
the four-byte throttle time (only at `v1` or above), the four-byte item count,
and for each item in list order the two-byte name length, the name bytes and
the two-byte error code; nothing else. -/
theorem response_writeTo_layout (t : deleteTopicsResponse) (wb : List Byte) :
    t.writeTo wb = wb ++ specResponseBody t := by
  rw [response_writeTo_eq, specResponseBody, itemsBytes_eq_flatten, bigEndian_four,
    bigEndian_four, be32_wrapInt32]
  simp only [v1, List.append_assoc]

/-! ## What the decoder leaves alone -/

theorem readItem_frame (t : deleteTopicsResponse) (r : List Byte) (sz : Int) :
    (t.readItem r sz).val.v = t.v ∧ (t.readItem r sz).val.ThrottleTime = t.ThrottleTime := by
  unfold deleteTopicsResponse.readItem
  dsimp only
  split <;> exact ⟨rfl, rfl⟩

theorem readArrayLoop_frame (n : Nat) (t : deleteTopicsResponse) (r : List Byte) (sz : Int) :
    (readArrayLoop deleteTopicsResponse.readItem n t r sz).val.v = t.v ∧
    (readArrayLoop deleteTopicsResponse.readItem n t r sz).val.ThrottleTime = t.ThrottleTime := by
  induction n generalizing t r sz with
  | zero => exact ⟨rfl, rfl⟩
  | succ n ih =>
    unfold readArrayLoop
    have hf := readItem_frame t r sz
    dsimp only
    split
    · exact hf
    · have := ih (t.readItem r sz).val (t.readItem r sz).rest (t.readItem r sz).remain
      exact ⟨this.1.trans hf.1, this.2.trans hf.2⟩

theorem readArrayWith_frame (t : deleteTopicsResponse) (r : List Byte) (sz : Int) :
    (readArrayWith r sz t deleteTopicsResponse.readItem).val.v = t.v ∧
    (readArrayWith r sz t deleteTopicsResponse.readItem).val.ThrottleTime = t.ThrottleTime := by
  unfold readArrayWith
  dsimp only
  split
  · exact ⟨rfl, rfl⟩
  · split
    · exact ⟨rfl, rfl⟩
    · split
      · exact ⟨rfl, rfl⟩
      · split
        · exact ⟨rfl, rfl⟩
        · exact readArrayLoop_frame _ _ _ _

theorem isInt32_wrapInt32 (x : Int) : isInt32 (wrapInt32 x) := by
  unfold isInt32 wrapInt32; omega

/-! ## Version gating -/

/-- C4, as stated, fails: the version-0 encoding of a single item with the empty
name and code 0 is the eight bytes `00 00 00 01 00 00 00 00`, and the version-1
reader decodes them without error and with nothing left over, as throttle
time 1 and an empty item list. -/
theorem v1_reader_accepts_v0_bytes :
    sampleResponseV0.v = v0 ∧
    sampleResponseV0.writeTo [] = [0, 0, 0, 1, 0, 0, 0, 0] ∧
    (deleteTopicsResponse.fresh v1).readFrom (sampleResponseV0.writeTo [])
        (sampleResponseV0.writeTo []).length
      = ⟨{ v := v1, ThrottleTime := 1, TopicErrorCodes := [] }, [], 0, none⟩ := by
  decide

/-! ## The result map of `Client.DeleteTopics` -/

theorem ErrorMap.mem_keys_set (m : ErrorMap) (k k1 : List Byte) (x : Option GoError) :
    k1 ∈ (m.set k x).keys ↔ k1 ∈ m.keys ∨ k1 = k := by
  simp only [ErrorMap.keys, ErrorMap.set, List.map_append, List.mem_append, List.mem_map,
    List.mem_filter, List.map_cons, List.map_nil, List.mem_singleton]
  constructor
  · rintro (⟨p, ⟨hp, _⟩, rfl⟩ | h)
    · exact Or.inl ⟨p, hp, rfl⟩
    · exact Or.inr h
  · rintro (⟨p, hp, rfl⟩ | h)
    · by_cases hk : p.1 = k
      · exact Or.inr hk
      · exact Or.inl ⟨p, ⟨hp, by simpa using hk⟩, rfl⟩
    · exact Or.inr h

theorem fillErrors_cons (t : ResponseTopic) (ts : List ResponseTopic) (m : ErrorMap) :
    fillErrors (t :: ts) m
      = fillErrors ts (m.set t.Name (if t.ErrorCode = 0 then none else some (Error t.ErrorCode))) := by
  rw [fillErrors]
  split <;> rfl

theorem mem_keys_fillErrors (rs : List ResponseTopic) (m : ErrorMap) (k : List Byte) :
    k ∈ (fillErrors rs m).keys ↔ k ∈ m.keys ∨ k ∈ rs.map (fun t => t.Name) := by
  induction rs generalizing m with
  | nil => simp [fillErrors]
  | cons t ts ih =>
    rw [fillErrors_cons, ih, ErrorMap.mem_keys_set]
    simp only [List.map_cons, List.mem_cons]
    tauto

theorem find?_filter_ne (m : ErrorMap) (k k1 : List Byte) (h : k1 ≠ k) :
    (m.filter (fun p => p.1 ≠ k)).find? (fun p => p.1 = k1) = m.find? (fun p => p.1 = k1) := by
  induction m with
  | nil => rfl
  | cons p ps ih =>
    by_cases hp : p.1 = k
    · have hp1 : ¬ (p.1 = k1) := fun e => h (e.symm.trans hp)
      have hf : decide (p.1 ≠ k) = false := by simpa using hp
      have hg : decide (p.1 = k1) = false := by simpa using hp1
      rw [List.filter_cons, hf, List.find?_cons, hg]
      exact ih
    · have hf : decide (p.1 ≠ k) = true := by simpa using hp
      rw [List.filter_cons, hf]
      simp only [if_true, List.find?_cons]
      rw [ih]

theorem find?_filter_self (m : ErrorMap) (k : List Byte) :
    (m.filter (fun p => p.1 ≠ k)).find? (fun p => p.1 = k) = none := by
  rw [List.find?_eq_none]
  intro p hp
  simp only [List.mem_filter] at hp
  simpa using hp.2

theorem ErrorMap.get?_set (m : ErrorMap) (k k1 : List Byte) (x : Option GoError) :
    (m.set k x).get? k1 = if k1 = k then some x else m.get? k1 := by
  unfold ErrorMap.get? ErrorMap.set
  rw [List.find?_append]
  by_cases h : k1 = k
  · subst h
    rw [find?_filter_self]
    simp
  · have hk : ¬ (k = k1) := fun e => h e.symm
    rw [find?_filter_ne m k k1 h, if_neg h]
    cases hm : List.find? (fun p => decide (p.1 = k1)) m with
    | none => simp [hk]
    | some q => simp

theorem get?_fillErrors_of_not_mem (rs : List ResponseTopic) (m : ErrorMap) (k : List Byte)
    (h : k ∉ rs.map (fun t => t.Name)) : (fillErrors rs m).get? k = m.get? k := by
  induction rs generalizing m with
  | nil => rfl
  | cons t ts ih =>
    simp only [List.map_cons, List.mem_cons, not_or] at h
    rw [fillErrors_cons, ih _ h.2, ErrorMap.get?_set, if_neg h.1]

theorem get?_fillErrors_of_nodup (rs : List ResponseTopic) (m : ErrorMap)
    (hd : (rs.map (fun t => t.Name)).Nodup) (t : ResponseTopic) (ht : t ∈ rs) :
    (fillErrors rs m).get? t.Name
      = some (if t.ErrorCode = 0 then none else some (Error t.ErrorCode)) := by
  induction rs generalizing m with
  | nil => cases ht
  | cons r rs ih =>
    simp only [List.map_cons, List.nodup_cons] at hd
    rw [fillErrors_cons]
    rcases List.mem_cons.mp ht with rfl | h
    · rw [get?_fillErrors_of_not_mem _ _ _ hd.1, ErrorMap.get?_set, if_pos rfl]
    · exact ih _ hd.2 h

/-! ## The claims on `Client.DeleteTopics` -/

theorem DeleteTopics_of_ok (c : Client) (req : DeleteTopicsRequest) (res : ProtocolResponse)
    (h : c.roundTrip req.Addr { TopicNames := req.Topics, TimeoutMs := c.timeoutMs } = .ok res) :
    c.DeleteTopics req
      = (some { Throttle := makeDuration res.ThrottleTimeMs,
                Errors := fillErrors res.Responses [] }, none) := by
  unfold Client.DeleteTopics
  rw [h]

theorem DeleteTopics_of_error (c : Client) (req : DeleteTopicsRequest) (e : GoError)
    (h : c.roundTrip req.Addr { TopicNames := req.Topics, TimeoutMs := c.timeoutMs } = .error e) :
    c.DeleteTopics req = (none, some (GoError.wrapped "kafka.(*Client).DeleteTopics: " e)) := by
  unfold Client.DeleteTopics
  rw [h]

/-- C5, as stated, fails: asked to delete `t1` and `t2`, a broker that answers
with no item makes `Client.DeleteTopics` return an empty map, whose key set is
not the set of requested names. -/
theorem DeleteTopics_keys_not_requested :
    (clientAnswering emptyAnswer).DeleteTopics sampleDelete
      = (some { Throttle := 0, Errors := [] }, none) ∧
    ¬ (∀ k, k ∈ ErrorMap.keys [] ↔ k ∈ sampleDelete.Topics) := by
  refine ⟨rfl, fun h => ?_⟩
  have := (h topicT1).2 (by simp [sampleDelete])
  simp [ErrorMap.keys] at this

/-- C5, amended: whenever `roundTrip` succeeds, the key set of the `Errors` map
is exactly the set of names of the items in the broker's response; hence it is
the set of requested names whenever the response names exactly the requested
topics. -/
theorem DeleteTopics_keys_of_response (c : Client) (req : DeleteTopicsRequest)
    (res : ProtocolResponse)
    (h : c.roundTrip req.Addr { TopicNames := req.Topics, TimeoutMs := c.timeoutMs } = .ok res) :
    ∃ ret, c.DeleteTopics req = (some ret, none) ∧
      (∀ k, k ∈ ret.Errors.keys ↔ k ∈ res.Responses.map (fun t => t.Name)) ∧
      ((∀ k, k ∈ res.Responses.map (fun t => t.Name) ↔ k ∈ req.Topics) →
        ∀ k, k ∈ ret.Errors.keys ↔ k ∈ req.Topics) := by
  refine ⟨_, DeleteTopics_of_ok c req res h, ?_, ?_⟩
  · intro k
    rw [mem_keys_fillErrors]
    simp [ErrorMap.keys]
  · intro hn k
    rw [mem_keys_fillErrors, ← hn k]
    simp [ErrorMap.keys]

/-- Witness of the amended C5: the scenario answer for the request of `t1` and `t2`. -/
theorem DeleteTopics_keys_of_response_witness :
    ∃ ret, (clientAnswering sampleAnswer).DeleteTopics sampleDelete = (some ret, none) ∧
      (∀ k, k ∈ ret.Errors.keys ↔ k ∈ sampleAnswer.Responses.map (fun t => t.Name)) ∧
      ((∀ k, k ∈ sampleAnswer.Responses.map (fun t => t.Name) ↔ k ∈ sampleDelete.Topics) →
        ∀ k, k ∈ ret.Errors.keys ↔ k ∈ sampleDelete.Topics) :=
  DeleteTopics_keys_of_response (clientAnswering sampleAnswer) sampleDelete sampleAnswer rfl

/-- C6: per-item translation. Whenever `roundTrip` succeeds with items of pairwise
distinct names, `Client.DeleteTopics` returns a response and no error, and for
every item `(name, code)` the `Errors` map has the key `name`, mapped to `nil`
when `code = 0` (the entry is present) and to `Error(code)` otherwise. -/
theorem DeleteTopics_per_item (c : Client) (req : DeleteTopicsRequest) (res : ProtocolResponse)
    (h : c.roundTrip req.Addr { TopicNames := req.Topics, TimeoutMs := c.timeoutMs } = .ok res)
    (hd : (res.Responses.map (fun t => t.Name)).Nodup) :
    ∃ ret, c.DeleteTopics req = (some ret, none) ∧
      ∀ t ∈ res.Responses,
        t.Name ∈ ret.Errors.keys ∧
        (t.ErrorCode = 0 → ret.Errors.get? t.Name = some none) ∧
        (t.ErrorCode ≠ 0 → ret.Errors.get? t.Name = some (some (Error t.ErrorCode))) := by
  refine ⟨_, DeleteTopics_of_ok c req res h, ?_⟩
  intro t ht
  have hg := get?_fillErrors_of_nodup res.Responses [] hd t ht
  refine ⟨?_, ?_, ?_⟩
  · rw [mem_keys_fillErrors]
    exact Or.inr (List.mem_map.mpr ⟨t, ht, rfl⟩)
  · intro h0
    simpa [h0] using hg
  · intro h0
    simpa [h0] using hg

/-- Witness of C6, the spec's scenario: items `t1 -> 0`, `t2 -> 3` give the map
`t1: nil, t2: Error(3)` and no call-level error. -/
theorem DeleteTopics_per_item_witness :
    (clientAnswering sampleAnswer).DeleteTopics sampleDelete
      = (some { Throttle := 0, Errors := [(topicT1, none), (topicT2, some (Error 3))] }, none) ∧
    (sampleAnswer.Responses.map (fun t => t.Name)).Nodup ∧
    ∃ ret, (clientAnswering sampleAnswer).DeleteTopics sampleDelete = (some ret, none) ∧
      ∀ t ∈ sampleAnswer.Responses,
        t.Name ∈ ret.Errors.keys ∧
        (t.ErrorCode = 0 → ret.Errors.get? t.Name = some none) ∧
        (t.ErrorCode ≠ 0 → ret.Errors.get? t.Name = some (some (Error t.ErrorCode))) :=
  ⟨by decide, by decide,
    DeleteTopics_per_item (clientAnswering sampleAnswer) sampleDelete sampleAnswer rfl
      (by decide)⟩

/-- C7: per-item errors never abort the client call. `Client.DeleteTopics`
returns a non-nil error if and only if `roundTrip` returned an error; then the
returned response is nil and the error is `roundTrip`'s error wrapped under
`kafka.(*Client).DeleteTopics: `. For every response `roundTrip` returns,
whatever codes it carries, the call returns a non-nil response and a nil error. -/
theorem DeleteTopics_error_iff (c : Client) (req : DeleteTopicsRequest) :
    ((c.DeleteTopics req).2 ≠ none ↔
      ∃ e, c.roundTrip req.Addr { TopicNames := req.Topics, TimeoutMs := c.timeoutMs }
        = .error e) ∧
    (∀ e, c.roundTrip req.Addr { TopicNames := req.Topics, TimeoutMs := c.timeoutMs } = .error e →
      c.DeleteTopics req = (none, some (GoError.wrapped "kafka.(*Client).DeleteTopics: " e))) ∧
    (∀ res, c.roundTrip req.Addr { TopicNames := req.Topics, TimeoutMs := c.timeoutMs } = .ok res →
      (c.DeleteTopics req).1 ≠ none ∧ (c.DeleteTopics req).2 = none) := by
  refine ⟨?_, fun e he => DeleteTopics_of_error c req e he, ?_⟩
  · cases hr : c.roundTrip req.Addr { TopicNames := req.Topics, TimeoutMs := c.timeoutMs } with
    | error e => simp [DeleteTopics_of_error c req e hr]
    | ok res => simp [DeleteTopics_of_ok c req res hr]
  · intro res hr
    simp [DeleteTopics_of_ok c req res hr]

/-- Witness of C7: a refused connection comes back wrapped and without a
response; the scenario answer, which carries code 3 for `t2`, comes back as a
response without a call-level error. -/
theorem DeleteTopics_error_iff_witness :
    (clientFailing (GoError.other "connection refused")).DeleteTopics sampleDelete
      = (none, some (GoError.wrapped "kafka.(*Client).DeleteTopics: "
          (GoError.other "connection refused"))) ∧
    ((clientAnswering sampleAnswer).DeleteTopics sampleDelete).1 ≠ none ∧
    ((clientAnswering sampleAnswer).DeleteTopics sampleDelete).2 = none :=
  ⟨(DeleteTopics_error_iff (clientFailing (GoError.other "connection refused"))
      sampleDelete).2.1 _ rfl,
    (DeleteTopics_error_iff (clientAnswering sampleAnswer) sampleDelete).2.2 sampleAnswer rfl⟩

/-! ## The connection path -/

theorem readFrom_v0_frame (t : deleteTopicsResponse) (r : List Byte) (sz : Int)
    (hv : t.v = v0) : (t.readFrom r sz).val.ThrottleTime = t.ThrottleTime := by
  unfold deleteTopicsResponse.readFrom
  have h : ¬ (t.v ≥ v1) := by rw [hv]; decide
  simp only [h, if_false]
  exact (readArrayWith_frame t r sz).2

theorem readFrom_v1_throttle (t : deleteTopicsResponse) (r : List Byte) (sz : Int)
    (hv : t.v ≥ v1) (hok : (t.readFrom r sz).err = none) :
    ∃ b0 b1 b2 b3 rest, r = b0 :: b1 :: b2 :: b3 :: rest ∧
      (t.readFrom r sz).val.ThrottleTime = makeInt32 b0 b1 b2 b3 := by
  unfold deleteTopicsResponse.readFrom at hok ⊢
  simp only [hv, if_true] at hok ⊢
  unfold readInt32 at hok ⊢
  by_cases hsz : sz < 4
  · simp [hsz] at hok
  · simp only [hsz, if_false] at hok ⊢
    match r, hok with
    | [], hok => simp at hok
    | [_], hok => simp at hok
    | [_, _], hok => simp at hok
    | [_, _, _], hok => simp at hok
    | b0 :: b1 :: b2 :: b3 :: rest, _ =>
      exact ⟨b0, b1, b2, b3, rest, rfl, (readArrayWith_frame _ _ _).2⟩

theorem writeOperation_cases (c : Conn) (req : deleteTopicsRequest) (version : apiVersion) :
    ((c.writeOperation ⟨req, deleteTopicsResponse.fresh version, none⟩ (c.writePhase version)
        Conn.readPhase).1.response = deleteTopicsResponse.fresh version ∧
      (c.writeOperation ⟨req, deleteTopicsResponse.fresh version, none⟩ (c.writePhase version)
        Conn.readPhase).2 ≠ none ∧
      ((c.writePhase version ⟨req, deleteTopicsResponse.fresh version, none⟩ c.deadline c.id).2
          ≠ none ∨ ∃ e, c.waitResponse = .error e)) ∨
    ∃ size rbuf, c.waitResponse = .ok (size, rbuf) ∧
      (c.writePhase version ⟨req, deleteTopicsResponse.fresh version, none⟩ c.deadline c.id).2
        = none ∧
      (c.writeOperation ⟨req, deleteTopicsResponse.fresh version, none⟩ (c.writePhase version)
        Conn.readPhase).1.response
        = ((deleteTopicsResponse.fresh version).readFrom rbuf size).val ∧
      (c.writeOperation ⟨req, deleteTopicsResponse.fresh version, none⟩ (c.writePhase version)
        Conn.readPhase).2
        = expectZeroSize ((deleteTopicsResponse.fresh version).readFrom rbuf size).remain
            ((deleteTopicsResponse.fresh version).readFrom rbuf size).err := by
  unfold Conn.writeOperation
  dsimp only
  cases hw : (c.writePhase version ⟨req, deleteTopicsResponse.fresh version, none⟩
      c.deadline c.id).2 with
  | some e => left; exact ⟨rfl, by simp, Or.inl (by simp)⟩
  | none =>
    cases hr : c.waitResponse with
    | error e => left; exact ⟨rfl, by simp, Or.inr ⟨e, rfl⟩⟩
    | ok p =>
      obtain ⟨size, rbuf⟩ := p
      right
      exact ⟨size, rbuf, rfl, rfl, rfl, rfl⟩

theorem writeOperation_sent (c : Conn) (req : deleteTopicsRequest) (version : apiVersion) :
    (c.writeOperation ⟨req, deleteTopicsResponse.fresh version, none⟩ (c.writePhase version)
        Conn.readPhase).1.sent
      = (c.writePhase version ⟨req, deleteTopicsResponse.fresh version, none⟩
          c.deadline c.id).1.sent := by
  unfold Conn.writeOperation
  dsimp only
  split
  · rfl
  · split <;> rfl

theorem deleteTopics_sent (c : Conn) (req : deleteTopicsRequest) (version : apiVersion)
    (hneg : c.negotiateVersion = .ok version) :
    (c.deleteTopics req).sent
      = (c.writePhase version ⟨req, deleteTopicsResponse.fresh version, none⟩
          c.deadline c.id).1.sent := by
  rw [← writeOperation_sent]
  unfold Conn.deleteTopics
  rw [hneg]
  dsimp only
  split
  · rfl
  · split <;> rfl

theorem firstError_eq_none_iff (es : List deleteTopicsResponseV0TopicErrorCode) :
    firstError es = none ↔ ∀ e ∈ es, e.ErrorCode = 0 := by
  induction es with
  | nil => simp [firstError]
  | cons e es ih =>
    unfold firstError
    by_cases h : e.ErrorCode = 0
    · simp [h, ih]
    · simp [h]

theorem firstError_append (pre post : List deleteTopicsResponseV0TopicErrorCode)
    (e : deleteTopicsResponseV0TopicErrorCode) (hpre : ∀ p ∈ pre, p.ErrorCode = 0)
    (he : e.ErrorCode ≠ 0) : firstError (pre ++ e :: post) = some (Error e.ErrorCode) := by
  induction pre with
  | nil => simp [firstError, he]
  | cons p ps ih =>
    have hp : p.ErrorCode = 0 := hpre p (List.mem_cons_self _ _)
    simp only [List.cons_append, firstError, hp, ne_eq, not_true_eq_false, if_false]
    exact ih (fun q hq => hpre q (List.mem_cons_of_mem _ hq))

theorem deleteTopics_of_failure (c : Conn) (req : deleteTopicsRequest) (version : apiVersion)
    (hneg : c.negotiateVersion = .ok version) (e : GoError)
    (hop : (c.writeOperation ⟨req, deleteTopicsResponse.fresh version, none⟩
      (c.writePhase version) Conn.readPhase).2 = some e) :
    (c.deleteTopics req).response = deleteTopicsResponse.zero ∧
    (c.deleteTopics req).err = some e := by
  unfold Conn.deleteTopics
  rw [hneg]
  dsimp only
  change (c.writeOperation ⟨req, { v := version, ThrottleTime := 0, TopicErrorCodes := [] }, none⟩
      (c.writePhase version) Conn.readPhase).2 = some e at hop
  rw [hop]
  exact ⟨rfl, rfl⟩

theorem deleteTopics_of_success (c : Conn) (req : deleteTopicsRequest) (version : apiVersion)
    (hneg : c.negotiateVersion = .ok version)
    (hop : (c.writeOperation ⟨req, deleteTopicsResponse.fresh version, none⟩
      (c.writePhase version) Conn.readPhase).2 = none) :
    (c.deleteTopics req).response
      = (c.writeOperation ⟨req, deleteTopicsResponse.fresh version, none⟩
          (c.writePhase version) Conn.readPhase).1.response ∧
    (c.deleteTopics req).err
      = firstError (c.writeOperation ⟨req, deleteTopicsResponse.fresh version, none⟩
          (c.writePhase version) Conn.readPhase).1.response.TopicErrorCodes := by
  unfold Conn.deleteTopics
  rw [hneg]
  dsimp only
  change (c.writeOperation ⟨req, { v := version, ThrottleTime := 0, TopicErrorCodes := [] }, none⟩
      (c.writePhase version) Conn.readPhase).2 = none at hop
  rw [hop]
  dsimp only
  change _ = (c.writeOperation ⟨req, { v := version, ThrottleTime := 0, TopicErrorCodes := [] },
      none⟩ (c.writePhase version) Conn.readPhase).1.response ∧ _ = firstError
      (c.writeOperation ⟨req, { v := version, ThrottleTime := 0, TopicErrorCodes := [] },
      none⟩ (c.writePhase version) Conn.readPhase).1.response.TopicErrorCodes
  cases hf : firstError (c.writeOperation
      ⟨req, { v := version, ThrottleTime := 0, TopicErrorCodes := [] }, none⟩
      (c.writePhase version) Conn.readPhase).1.response.TopicErrorCodes with
  | none => exact ⟨rfl, rfl⟩
  | some e => exact ⟨rfl, rfl⟩

/-- C8: throttle is zero at version 0. For every input and budget `readFrom` at
`v0` leaves `ThrottleTime` unchanged, so the response `Conn.deleteTopics` returns
after negotiating `v0` always has `ThrottleTime = 0`; at `v1` or above a
successful `readFrom` sets `ThrottleTime` to the first four bytes of the input
read as a big-endian signed integer. -/
theorem throttle_by_version :
    (∀ (t : deleteTopicsResponse) (r : List Byte) (sz : Int), t.v = v0 →
      (t.readFrom r sz).val.ThrottleTime = t.ThrottleTime) ∧
    (∀ (c : Conn) (req : deleteTopicsRequest), c.negotiateVersion = .ok v0 →
      (c.deleteTopics req).response.ThrottleTime = 0) ∧
    (∀ (t : deleteTopicsResponse) (r : List Byte) (sz : Int), t.v ≥ v1 →
      (t.readFrom r sz).err = none →
      ∃ b0 b1 b2 b3 rest, r = b0 :: b1 :: b2 :: b3 :: rest ∧
        (t.readFrom r sz).val.ThrottleTime = makeInt32 b0 b1 b2 b3) := by
  refine ⟨readFrom_v0_frame, ?_, readFrom_v1_throttle⟩
  intro c req hneg
  cases hop : (c.writeOperation ⟨req, deleteTopicsResponse.fresh v0, none⟩
      (c.writePhase v0) Conn.readPhase).2 with
  | some e => rw [(deleteTopics_of_failure c req v0 hneg e hop).1]; rfl
  | none =>
    rw [(deleteTopics_of_success c req v0 hneg hop).1]
    rcases writeOperation_cases c req v0 with ⟨h, _, _⟩ | ⟨size, rbuf, _, _, h, _⟩
    · rw [h]; rfl
    · rw [h, readFrom_v0_frame _ _ _ rfl]; rfl

/-- Witness of C8: a version-0 reader given a throttle of 7 keeps it over the
sample bytes; a connection that negotiated version 0 returns throttle 0 for
the frame of the version-1 sample; and the version-1 reader takes the first
four bytes `00 00 00 64` of the sample as throttle 100. -/
theorem throttle_by_version_witness :
    (({ v := v0, ThrottleTime := 7, TopicErrorCodes := [] } : deleteTopicsResponse).readFrom
        (sampleResponseV1.writeTo []) 20).val.ThrottleTime = 7 ∧
    ((sampleConn v0 none sampleFrameV1).deleteTopics sampleRequestZero).response.ThrottleTime
      = 0 ∧
    ((deleteTopicsResponse.fresh v1).readFrom (sampleResponseV1.writeTo []) 20).err = none ∧
    ∃ b0 b1 b2 b3 rest, sampleResponseV1.writeTo [] = b0 :: b1 :: b2 :: b3 :: rest ∧
      ((deleteTopicsResponse.fresh v1).readFrom (sampleResponseV1.writeTo []) 20).val.ThrottleTime
        = makeInt32 b0 b1 b2 b3 :=
  ⟨throttle_by_version.1 _ _ _ rfl,
    throttle_by_version.2.1 (sampleConn v0 none sampleFrameV1) sampleRequestZero rfl,
    by decide,
    throttle_by_version.2.2 (deleteTopicsResponse.fresh v1) (sampleResponseV1.writeTo []) 20
      (by decide) (by decide)⟩

theorem writeOperation_of_ok (c : Conn) (req : deleteTopicsRequest) (version : apiVersion)
    (size : Int) (rbuf : List Byte)
    (hw : (c.writePhase version ⟨req, deleteTopicsResponse.fresh version, none⟩
      c.deadline c.id).2 = none)
    (hwait : c.waitResponse = .ok (size, rbuf)) :
    (c.writeOperation ⟨req, deleteTopicsResponse.fresh version, none⟩ (c.writePhase version)
        Conn.readPhase).1.response
      = ((deleteTopicsResponse.fresh version).readFrom rbuf size).val ∧
    (c.writeOperation ⟨req, deleteTopicsResponse.fresh version, none⟩ (c.writePhase version)
        Conn.readPhase).2
      = expectZeroSize ((deleteTopicsResponse.fresh version).readFrom rbuf size).remain
          ((deleteTopicsResponse.fresh version).readFrom rbuf size).err := by
  rcases writeOperation_cases c req version with
    ⟨_, _, h | ⟨e, h⟩⟩ | ⟨size1, rbuf1, hwait1, _, h1, h2⟩
  · exact absurd hw h
  · rw [hwait] at h
    cases h
  · rw [hwait] at hwait1
    cases hwait1
    exact ⟨h1, h2⟩

/-- C9: the first non-zero code is the call's error on the connection path. When
version negotiation, the write and the read (no decoding error, nothing left
unread) succeed, `Conn.deleteTopics` returns the decoded response; its error is
nil if and only if every item's code is 0 (the empty list included), and
otherwise it is `Error(c)` for the code `c` of the first item, in response
order, whose code is not zero. -/
theorem deleteTopics_first_nonzero (c : Conn) (req : deleteTopicsRequest)
    (version : apiVersion) (size : Int) (rbuf : List Byte)
    (hneg : c.negotiateVersion = .ok version)
    (hw : (c.writePhase version ⟨req, deleteTopicsResponse.fresh version, none⟩
      c.deadline c.id).2 = none)
    (hwait : c.waitResponse = .ok (size, rbuf))
    (hread : ((deleteTopicsResponse.fresh version).readFrom rbuf size).err = none)
    (hrem : ((deleteTopicsResponse.fresh version).readFrom rbuf size).remain = 0) :
    (c.deleteTopics req).response = ((deleteTopicsResponse.fresh version).readFrom rbuf size).val ∧
    ((c.deleteTopics req).err = none ↔
      ∀ e ∈ ((deleteTopicsResponse.fresh version).readFrom rbuf size).val.TopicErrorCodes,
        e.ErrorCode = 0) ∧
    (∀ pre e post,
      ((deleteTopicsResponse.fresh version).readFrom rbuf size).val.TopicErrorCodes
        = pre ++ e :: post →
      (∀ p ∈ pre, p.ErrorCode = 0) → e.ErrorCode ≠ 0 →
      (c.deleteTopics req).err = some (Error e.ErrorCode)) := by
  obtain ⟨h1, h2⟩ := writeOperation_of_ok c req version size rbuf hw hwait
  rw [hread, hrem] at h2
  obtain ⟨h3, h4⟩ := deleteTopics_of_success c req version hneg h2
  rw [h1] at h3 h4
  refine ⟨h3, ?_, ?_⟩
  · rw [h4]
    exact firstError_eq_none_iff _
  · intro pre e post hsplit hpre he
    rw [h4, hsplit]
    exact firstError_append pre post e hpre he

/-- Witness of C9: on the frame of the version-1 sample (`t1 -> 0`, `t2 -> 3`)
the call returns the decoded sample together with `Error(3)`. -/
theorem deleteTopics_first_nonzero_witness :
    ((sampleConn v1 none sampleFrameV1).deleteTopics sampleRequestZero).response
      = sampleResponseV1 ∧
    ((sampleConn v1 none sampleFrameV1).deleteTopics sampleRequestZero).err = some (Error 3) :=
  have h := deleteTopics_first_nonzero (sampleConn v1 none sampleFrameV1) sampleRequestZero
    v1 20 (sampleResponseV1.writeTo []) rfl rfl rfl (by decide) (by decide)
  ⟨h.1.trans (by decide),
    h.2.2 [{ Topic := topicT1, ErrorCode := 0 }] { Topic := topicT2, ErrorCode := 3 } []
      (by decide) (by decide) (by decide)⟩

/-! ## The timeout written by `Conn.deleteTopics` -/

/-- C10: the code breaks the claim at `Timeout = 0`. The field comment of
`deleteTopicsRequest.Timeout` says that values `<= 0` make the broker return
immediately, yet the write closure of `Conn.deleteTopics` replaces a zero
`Timeout` by the timeout derived from the deadline. With the deadline helpers
as the spec describes them and a round-trip estimate of one second, the request
handed to `writeRequest` carries `Timeout = 1000` when no deadline is set and
`Timeout = 500` when the deadline is half a second ahead; both are positive. -/
theorem zero_timeout_is_replaced :
    sampleRequestZero.Timeout ≤ 0 ∧
    ((sampleConn v0 none sampleFrameV1).deleteTopics sampleRequestZero).sent
      = some { Topics := [topicT1], Timeout := 1000 } ∧
    ((sampleConn v0 (some 500000000) sampleFrameV1).deleteTopics sampleRequestZero).sent
      = some { Topics := [topicT1], Timeout := 500 } ∧
    ¬ ((1000 : Int) ≤ 0) ∧ ¬ ((500 : Int) ≤ 0) := by
  decide

/-- What the guard `request.Timeout == 0` does, for every connection and
deadline: a request with a negative `Timeout` is handed to `writeRequest`
unchanged, and a request with `Timeout = 0` is sent with
`milliseconds(deadlineToTimeout(adjustDeadlineForRTT(deadline, now, defaultRTT), now))`
in its place. -/
theorem negative_timeout_kept (c : Conn) (req : deleteTopicsRequest) (version : apiVersion)
    (hneg : c.negotiateVersion = .ok version) :
    (req.Timeout < 0 →
      (c.deleteTopics req).sent = some req ∧
      req.writeTo [] = writeStringArray [] req.Topics ++ be32 req.Timeout) ∧
    (req.Timeout = 0 →
      (c.deleteTopics req).sent
        = some { req with Timeout := (milliseconds
            (deadlineToTimeout (adjustDeadlineForRTT c.deadline c.now c.defaultRTT) c.now)) }) := by
  rw [deleteTopics_sent c req version hneg]
  unfold Conn.writePhase
  constructor
  · intro h
    have h0 : ¬ (req.Timeout = 0) := by omega
    refine ⟨?_, rfl⟩
    simp only [h0, if_false]
  · intro h
    simp only [h, if_true]

/-- The request with `Timeout = -1` is sent as it is. -/
theorem negative_timeout_kept_witness :
    ((sampleConn v0 none sampleFrameV1).deleteTopics sampleRequestNegative).sent
      = some sampleRequestNegative ∧
    sampleRequestNegative.Timeout < 0 :=
  ⟨((negative_timeout_kept (sampleConn v0 none sampleFrameV1) sampleRequestNegative v0 rfl).1
      (by decide)).1, by decide⟩

/-! ## How every read moves the cursor and the budget -/

theorem readInt16_cases (r : List Byte) (sz v : Int) :
    ((readInt16 r sz v).err ≠ none ∧ (readInt16 r sz v).val = v ∧
      (readInt16 r sz v).rest = r ∧ (readInt16 r sz v).remain = sz ∧
      (sz < 2 → (readInt16 r sz v).err = some GoError.shortRead)) ∨
    ∃ b0 b1 rest, r = b0 :: b1 :: rest ∧ 2 ≤ sz ∧
      readInt16 r sz v = ⟨makeInt16 b0 b1, rest, sz - 2, none⟩ := by
  unfold readInt16
  by_cases h : sz < 2
  · left; simp [h]
  · match r with
    | [] => left; simp [h]
    | [_] => left; simp [h]
    | b0 :: b1 :: rest => right; exact ⟨b0, b1, rest, rfl, by omega, by simp [h]⟩

theorem readInt32_cases (r : List Byte) (sz v : Int) :
    ((readInt32 r sz v).err ≠ none ∧ (readInt32 r sz v).val = v ∧
      (readInt32 r sz v).rest = r ∧ (readInt32 r sz v).remain = sz ∧
      (sz < 4 → (readInt32 r sz v).err = some GoError.shortRead)) ∨
    ∃ b0 b1 b2 b3 rest, r = b0 :: b1 :: b2 :: b3 :: rest ∧ 4 ≤ sz ∧
      readInt32 r sz v = ⟨makeInt32 b0 b1 b2 b3, rest, sz - 4, none⟩ := by
  unfold readInt32
  by_cases h : sz < 4
  · left; simp [h]
  · match r with
    | [] => left; simp [h]
    | [_] => left; simp [h]
    | [_, _] => left; simp [h]
    | [_, _, _] => left; simp [h]
    | b0 :: b1 :: b2 :: b3 :: rest =>
      right; exact ⟨b0, b1, b2, b3, rest, rfl, by omega, by simp [h]⟩

/-- What a successful `readString` did: it consumed a two-byte prefix and the
bytes of the decoded string, within the budget, and a larger budget changes
nothing but the budget left. -/
theorem readString_ok (r : List Byte) (sz : Int) (v : List Byte)
    (h : (readString r sz v).err = none) :
    ∃ b0 b1 body rest, r = b0 :: b1 :: (body ++ rest) ∧
      (body.length : Int) = (readString r sz v).val.length ∧
      (makeInt16 b0 b1 = -1 ∨ makeInt16 b0 b1 = body.length) ∧
      2 + (body.length : Int) ≤ sz ∧
      ∀ (sz1 : Int) (v1 : List Byte), 2 + (body.length : Int) ≤ sz1 →
        readString r sz1 v1 = ⟨(readString r sz v).val, rest, sz1 - (2 + body.length), none⟩ := by
  rcases readInt16_cases r sz 0 with ⟨he, _⟩ | ⟨b0, b1, rest, hr, hsz, hrd⟩
  · exfalso
    unfold readString at h
    dsimp only at h
    cases hx : (readInt16 r sz 0).err with
    | none => exact he hx
    | some e => rw [hx] at h; simp at h
  · subst hr
    have key : ∀ (sz1 : Int) (v1 : Int), 2 ≤ sz1 →
        readInt16 (b0 :: b1 :: rest) sz1 v1 = ⟨makeInt16 b0 b1, rest, sz1 - 2, none⟩ := by
      intro sz1 v1 h1
      have : ¬ sz1 < 2 := by omega
      simp [readInt16, this]
    unfold readString at h ⊢
    simp only [hrd] at h ⊢
    by_cases h1 : makeInt16 b0 b1 = -1
    · simp only [h1, if_true] at h ⊢
      refine ⟨b0, b1, [], rest, rfl, rfl, Or.inl h1, by simpa using hsz, ?_⟩
      intro sz1 v1 hs1
      simp only [key sz1 0 (by simpa using hs1), h1, if_true]
      simp
    · simp only [h1, if_false] at h ⊢
      by_cases h2 : makeInt16 b0 b1 < 0
      · simp [h2] at h
      · simp only [h2, if_false] at h ⊢
        by_cases h3 : makeInt16 b0 b1 > sz - 2
        · simp [h3] at h
        · simp only [h3, if_false] at h ⊢
          by_cases h4 : rest.length < (makeInt16 b0 b1).toNat
          · simp [h4] at h
          · simp only [h4, if_false] at h ⊢
            have hlen : (List.take (makeInt16 b0 b1).toNat rest).length
                = (makeInt16 b0 b1).toNat := by
              rw [List.length_take]; omega
            have hcast : (((makeInt16 b0 b1).toNat : Nat) : Int) = makeInt16 b0 b1 := by omega
            refine ⟨b0, b1, rest.take (makeInt16 b0 b1).toNat,
              rest.drop (makeInt16 b0 b1).toNat, ?_, rfl, Or.inr ?_, ?_, ?_⟩
            · rw [List.take_append_drop]
            · rw [hlen, hcast]
            · rw [hlen, hcast]; omega
            · intro sz1 v1 hs1
              rw [hlen, hcast] at hs1
              have h3' : ¬ (makeInt16 b0 b1 > sz1 - 2) := by omega
              rw [key sz1 0 (by omega)]
              dsimp only
              rw [if_neg h1, if_neg h2, if_neg h3', if_neg h4, hlen, hcast]
              have hsub : sz1 - 2 - makeInt16 b0 b1 = sz1 - (2 + makeInt16 b0 b1) := by omega
              rw [hsub]

/-- What a successful item read did: it consumed the wire form of the decoded
item, four bytes plus the name, within the budget; any budget that covers the
wire form gives the same item. -/
theorem item_readFrom_ok (d : deleteTopicsResponseV0TopicErrorCode) (r : List Byte) (sz : Int)
    (h : (d.readFrom r sz).err = none) :
    ∃ (e : deleteTopicsResponseV0TopicErrorCode) (wire rest : List Byte),
      r = wire ++ rest ∧ (wire.length : Int) = 4 + e.Topic.length ∧ (wire.length : Int) ≤ sz ∧
      ∀ (sz1 : Int) (d1 : deleteTopicsResponseV0TopicErrorCode), (wire.length : Int) ≤ sz1 →
        d1.readFrom r sz1 = ⟨e, rest, sz1 - wire.length, none⟩ := by
  unfold deleteTopicsResponseV0TopicErrorCode.readFrom at h
  dsimp only at h
  cases hs : (readString r sz d.Topic).err with
  | some e => rw [hs] at h; simp at h
  | none =>
    rw [hs] at h
    dsimp only at h
    obtain ⟨b0, b1, body, rest1, hr, hbody, _, hfit, hall⟩ := readString_ok r sz d.Topic hs
    have hat := hall sz d.Topic hfit
    rw [hat] at h
    dsimp only at h
    rcases readInt16_cases rest1 (sz - (2 + body.length)) d.ErrorCode with
      ⟨he, _⟩ | ⟨e0, e1, rest2, hr1, hsz1, _⟩
    · exact absurd h he
    · subst hr1
      refine ⟨⟨(readString r sz d.Topic).val, makeInt16 e0 e1⟩, b0 :: b1 :: (body ++ [e0, e1]),
        rest2, ?_, ?_, ?_, ?_⟩
      · rw [hr]; simp
      · simp only [List.length_cons, List.length_append, List.length_nil]
        push_cast
        omega
      · simp only [List.length_cons, List.length_append, List.length_nil]
        push_cast
        omega
      · intro sz1 d1 hs1
        simp only [List.length_cons, List.length_append, List.length_nil] at hs1 ⊢
        push_cast at hs1 ⊢
        unfold deleteTopicsResponseV0TopicErrorCode.readFrom
        rw [hall sz1 d1.Topic (by omega)]
        have hlt : ¬ (sz1 - (2 + (body.length : Int)) < 2) := by omega
        simp only [readInt16, hlt, if_false]
        have hsub : sz1 - (2 + (body.length : Int)) - 2
            = sz1 - ((body.length : Int) + 2 + 1 + 1) := by omega
        rw [hsub]

theorem readItem_ok (t : deleteTopicsResponse) (r : List Byte) (sz : Int)
    (h : (t.readItem r sz).err = none) :
    ∃ (e : deleteTopicsResponseV0TopicErrorCode) (wire rest : List Byte),
      r = wire ++ rest ∧ (wire.length : Int) = 4 + e.Topic.length ∧ (wire.length : Int) ≤ sz ∧
      ∀ (sz1 : Int) (t1 : deleteTopicsResponse), (wire.length : Int) ≤ sz1 →
        t1.readItem r sz1
          = ⟨{ t1 with TopicErrorCodes := t1.TopicErrorCodes ++ [e] }, rest,
              sz1 - wire.length, none⟩ := by
  unfold deleteTopicsResponse.readItem at h
  dsimp only at h
  cases hs : (({ Topic := [], ErrorCode := 0 } :
      deleteTopicsResponseV0TopicErrorCode).readFrom r sz).err with
  | some e => rw [hs] at h; simp at h
  | none =>
    obtain ⟨e, wire, rest, hr, hlen, hfit, hall⟩ := item_readFrom_ok _ r sz hs
    refine ⟨e, wire, rest, hr, hlen, hfit, ?_⟩
    intro sz1 t1 hs1
    unfold deleteTopicsResponse.readItem
    dsimp only
    rw [hall sz1 _ hs1]

theorem readArrayLoop_ok (n : Nat) (t : deleteTopicsResponse) (r : List Byte) (sz : Int)
    (hsz : 0 ≤ sz)
    (h : (readArrayLoop deleteTopicsResponse.readItem n t r sz).err = none) :
    ∃ (es : List deleteTopicsResponseV0TopicErrorCode) (wire rest : List Byte),
      es.length = n ∧ r = wire ++ rest ∧
      (wire.length : Int) = (itemsBytes es).length ∧ (wire.length : Int) ≤ sz ∧
      ∀ (sz1 : Int) (t1 : deleteTopicsResponse), (wire.length : Int) ≤ sz1 →
        readArrayLoop deleteTopicsResponse.readItem n t1 r sz1
          = ⟨{ t1 with TopicErrorCodes := t1.TopicErrorCodes ++ es }, rest,
              sz1 - wire.length, none⟩ := by
  induction n generalizing t r sz with
  | zero =>
    refine ⟨[], [], r, rfl, rfl, rfl, by simpa using hsz, ?_⟩
    intro sz1 t1 _
    simp [readArrayLoop]
  | succ n ih =>
    unfold readArrayLoop at h
    dsimp only at h
    cases hx : (t.readItem r sz).err with
    | some e => rw [hx] at h; simp at h
    | none =>
      rw [hx] at h
      dsimp only at h
      obtain ⟨e, w1, r1, hr, hlen, hfit, hall⟩ := readItem_ok t r sz hx
      have hat := hall sz t hfit
      rw [hat] at h
      dsimp only at h
      obtain ⟨es, w2, r2, hn, hr2, hlen2, hfit2, hall2⟩ :=
        ih _ r1 (sz - w1.length) (by omega) h
      refine ⟨e :: es, w1 ++ w2, r2, by simp [hn], ?_, ?_, ?_, ?_⟩
      · rw [hr, hr2, List.append_assoc]
      · simp only [itemsBytes, List.length_append, itemBytes_length]
        push_cast
        omega
      · simp only [List.length_append]
        push_cast
        omega
      · intro sz1 t1 hs1
        simp only [List.length_append] at hs1 ⊢
        push_cast at hs1 ⊢
        unfold readArrayLoop
        dsimp only
        rw [hall sz1 t1 (by omega)]
        dsimp only
        rw [hall2 (sz1 - w1.length) _ (by omega)]
        have hsub : sz1 - (w1.length : Int) - w2.length = sz1 - ((w1.length : Int) + w2.length) := by
          omega
        simp only [List.append_assoc, List.singleton_append, hsub]

theorem readArrayWith_count (t : deleteTopicsResponse) (c0 c1 c2 c3 : Byte) (q : List Byte)
    (sz n : Int) (hn : makeInt32 c0 c1 c2 c3 = n) (hsz : 4 ≤ sz) :
    readArrayWith (c0 :: c1 :: c2 :: c3 :: q) sz t deleteTopicsResponse.readItem
      = if n = -1 then ⟨t, q, sz - 4, none⟩
        else if n < 0 then ⟨t, q, sz - 4, some GoError.malformed⟩
        else if n > sz - 4 then ⟨t, q, sz - 4, some GoError.malformed⟩
        else readArrayLoop deleteTopicsResponse.readItem n.toNat t q (sz - 4) := by
  subst hn
  have hlt : ¬ sz < 4 := by omega
  unfold readArrayWith
  simp only [readInt32, hlt, if_false]

theorem readArrayWith_ok (t : deleteTopicsResponse) (r : List Byte) (sz : Int)
    (h : (readArrayWith r sz t deleteTopicsResponse.readItem).err = none) :
    ∃ (es : List deleteTopicsResponseV0TopicErrorCode) (wire rest : List Byte),
      r = wire ++ rest ∧
      (wire.length : Int) = 4 + (itemsBytes es).length ∧ (wire.length : Int) ≤ sz ∧
      ∀ (sz1 : Int) (t1 : deleteTopicsResponse), (wire.length : Int) ≤ sz1 →
        readArrayWith r sz1 t1 deleteTopicsResponse.readItem
          = ⟨{ t1 with TopicErrorCodes := t1.TopicErrorCodes ++ es }, rest,
              sz1 - wire.length, none⟩ := by
  rcases readInt32_cases r sz 0 with ⟨he, _⟩ | ⟨c0, c1, c2, c3, q, hr, hsz, _⟩
  · exfalso
    unfold readArrayWith at h
    dsimp only at h
    cases hx : (readInt32 r sz 0).err with
    | none => exact he hx
    | some e => rw [hx] at h; simp at h
  · subst hr
    obtain ⟨n, hn⟩ : ∃ n, makeInt32 c0 c1 c2 c3 = n := ⟨_, rfl⟩
    rw [readArrayWith_count t c0 c1 c2 c3 q sz n hn hsz] at h
    by_cases h1 : n = -1
    · refine ⟨[], [c0, c1, c2, c3], q, rfl, by simp [itemsBytes], by simpa using hsz, ?_⟩
      intro sz1 t1 hs1
      rw [readArrayWith_count t1 c0 c1 c2 c3 q sz1 n hn (by simpa using hs1), if_pos h1]
      simp
    · rw [if_neg h1] at h
      by_cases h2 : n < 0
      · rw [if_pos h2] at h
        cases h
      · rw [if_neg h2] at h
        by_cases h3 : n > sz - 4
        · rw [if_pos h3] at h
          cases h
        · rw [if_neg h3] at h
          obtain ⟨es, w, rest, hlen0, hq, hlen, hfit, hall⟩ :=
            readArrayLoop_ok _ t q (sz - 4) (by omega) h
          have hge := itemsBytes_length_ge es
          have hcast : ((n.toNat : Nat) : Int) = n := by omega
          have hes : ((es.length : Nat) : Int) = n := by rw [hlen0]; exact hcast
          refine ⟨es, c0 :: c1 :: c2 :: c3 :: w, rest, by rw [hq]; rfl, ?_, ?_, ?_⟩
          · simp only [List.length_cons]; push_cast; omega
          · simp only [List.length_cons]; push_cast; omega
          · intro sz1 t1 hs1
            simp only [List.length_cons] at hs1 ⊢
            push_cast at hs1 ⊢
            have h3' : ¬ (n > sz1 - 4) := by omega
            rw [readArrayWith_count t1 c0 c1 c2 c3 q sz1 n hn (by omega), if_neg h1, if_neg h2,
              if_neg h3', hall (sz1 - 4) t1 (by omega)]
            have hsub : sz1 - 4 - (w.length : Int)
                = sz1 - ((w.length : Int) + 1 + 1 + 1 + 1) := by omega
            rw [hsub]

/-- What a successful `readFrom` did: it consumed the wire form of what it
decoded, the optional throttle time, the count and the items, within the
budget, and any budget covering that wire form gives the same result. -/
theorem readFrom_ok (d : deleteTopicsResponse) (r : List Byte) (sz : Int)
    (h : (d.readFrom r sz).err = none) :
    ∃ (thr : Int) (es : List deleteTopicsResponseV0TopicErrorCode) (wire rest : List Byte),
      r = wire ++ rest ∧
      (wire.length : Int) = (if d.v ≥ v1 then 4 else 0) + (4 + (itemsBytes es).length) ∧
      (wire.length : Int) ≤ sz ∧
      ∀ (sz1 : Int), (wire.length : Int) ≤ sz1 →
        d.readFrom r sz1
          = ⟨{ v := d.v, ThrottleTime := thr, TopicErrorCodes := d.TopicErrorCodes ++ es },
              rest, sz1 - wire.length, none⟩ := by
  by_cases hv : d.v ≥ v1
  · unfold deleteTopicsResponse.readFrom at h
    rw [if_pos hv] at h
    dsimp only at h
    rcases readInt32_cases r sz d.ThrottleTime with ⟨he, _⟩ | ⟨b0, b1, b2, b3, q, hr, hsz, hrd⟩
    · exfalso
      cases hx : (readInt32 r sz d.ThrottleTime).err with
      | none => exact he hx
      | some e => rw [hx] at h; simp at h
    · subst hr
      rw [hrd] at h
      dsimp only at h
      obtain ⟨es, w, rest, hq, hlen, hfit, hall⟩ := readArrayWith_ok _ q (sz - 4) h
      refine ⟨makeInt32 b0 b1 b2 b3, es, b0 :: b1 :: b2 :: b3 :: w, rest, by rw [hq]; rfl,
        ?_, ?_, ?_⟩
      · simp only [List.length_cons, hv, if_true]; push_cast; omega
      · simp only [List.length_cons]; push_cast; omega
      · intro sz1 hs1
        simp only [List.length_cons] at hs1 ⊢
        push_cast at hs1 ⊢
        unfold deleteTopicsResponse.readFrom
        rw [if_pos hv]
        have hlt : ¬ sz1 < 4 := by omega
        simp only [readInt32, hlt, if_false]
        rw [hall (sz1 - 4) _ (by omega)]
        have hsub : sz1 - 4 - (w.length : Int) = sz1 - ((w.length : Int) + 1 + 1 + 1 + 1) := by
          omega
        rw [hsub]
  · unfold deleteTopicsResponse.readFrom at h
    rw [if_neg hv] at h
    obtain ⟨es, w, rest, hq, hlen, hfit, hall⟩ := readArrayWith_ok d r sz h
    refine ⟨d.ThrottleTime, es, w, rest, hq, ?_, hfit, ?_⟩
    · simp only [hv, if_false]; omega
    · intro sz1 hs1
      unfold deleteTopicsResponse.readFrom
      rw [if_neg hv, hall sz1 d hs1]

/-! ## Trailing bytes -/

theorem expectZeroSize_eq_none_iff (sz : Int) (err : Option GoError) :
    expectZeroSize sz err = none ↔ err = none ∧ sz = 0 := by
  unfold expectZeroSize
  cases err with
  | some e => simp
  | none =>
    by_cases h : sz = 0
    · simp [h]
    · simp [h]

/-- C11: trailing bytes are rejected. The read phase of `Conn.deleteTopics`
succeeds only if `readFrom` returned no error and `remain = 0`; and whenever
the declared size is strictly larger than the number of bytes the decoder
consumed from the connection's buffer, the read phase returns an error and
`Conn.deleteTopics` returns that error with an empty response. -/
theorem trailing_bytes_rejected (c : Conn) (req : deleteTopicsRequest) (version : apiVersion)
    (size : Int) (rbuf : List Byte)
    (hneg : c.negotiateVersion = .ok version)
    (hw : (c.writePhase version ⟨req, deleteTopicsResponse.fresh version, none⟩
      c.deadline c.id).2 = none)
    (hwait : c.waitResponse = .ok (size, rbuf)) :
    (∀ x : Exchange, (Conn.readPhase rbuf x size).2 = none ↔
      (x.response.readFrom rbuf size).err = none ∧ (x.response.readFrom rbuf size).remain = 0) ∧
    ((rbuf.length : Int) - ((deleteTopicsResponse.fresh version).readFrom rbuf size).rest.length
        < size →
      ∃ e, (Conn.readPhase rbuf ⟨req, deleteTopicsResponse.fresh version, none⟩ size).2 = some e ∧
        (c.deleteTopics req).err = some e ∧
        (c.deleteTopics req).response = deleteTopicsResponse.zero) := by
  constructor
  · intro x
    unfold Conn.readPhase
    exact expectZeroSize_eq_none_iff _ _
  · intro hlt
    obtain ⟨_, h2⟩ := writeOperation_of_ok c req version size rbuf hw hwait
    have hne : expectZeroSize ((deleteTopicsResponse.fresh version).readFrom rbuf size).remain
        ((deleteTopicsResponse.fresh version).readFrom rbuf size).err ≠ none := by
      rw [Ne, expectZeroSize_eq_none_iff]
      rintro ⟨herr, hrem⟩
      obtain ⟨thr, es, wire, rest, hr, _, _, hall⟩ := readFrom_ok _ rbuf size herr
      have hat := hall size (by assumption)
      rw [hat] at hlt hrem
      rw [hr] at hlt
      simp only [List.length_append] at hlt hrem
      push_cast at hlt
      omega
    cases he : expectZeroSize ((deleteTopicsResponse.fresh version).readFrom rbuf size).remain
        ((deleteTopicsResponse.fresh version).readFrom rbuf size).err with
    | none => exact absurd he hne
    | some e =>
      rw [he] at h2
      exact ⟨e, he, (deleteTopics_of_failure c req version hneg e h2).2,
        (deleteTopics_of_failure c req version hneg e h2).1⟩

/-- Witness of C11: the version-1 sample followed by one more byte, declared
as 21 bytes, is refused with one unread byte and an empty response. -/
theorem trailing_bytes_rejected_witness :
    ((sampleConn v1 none sampleFrameTrailing).deleteTopics sampleRequestZero).err
      = some (GoError.unreadBytes 1) ∧
    ((sampleConn v1 none sampleFrameTrailing).deleteTopics sampleRequestZero).response
      = deleteTopicsResponse.zero :=
  have h := (trailing_bytes_rejected (sampleConn v1 none sampleFrameTrailing) sampleRequestZero
    v1 21 (sampleResponseV1.writeTo [] ++ [0]) rfl rfl rfl).2 (by decide)
  ⟨by
    obtain ⟨e, he, herr, _⟩ := h
    have : e = GoError.unreadBytes 1 := by
      have h1 : (Conn.readPhase (sampleResponseV1.writeTo [] ++ [0])
          ⟨sampleRequestZero, deleteTopicsResponse.fresh v1, none⟩ 21).2
          = some (GoError.unreadBytes 1) := by decide
      rw [h1] at he
      exact (Option.some.inj he).symm
    rw [herr, this],
   by
    obtain ⟨_, _, _, hz⟩ := h
    exact hz⟩

/-! ## Truncation -/

theorem item_size_wrap (e : deleteTopicsResponseV0TopicErrorCode) :
    e.size = wrapInt32 (4 + e.Topic.length) := by
  simp only [deleteTopicsResponseV0TopicErrorCode.size, sizeofString, sizeofInt16, wrapInt32]
  omega

theorem sizeofArray_foldl_wrap (es : List deleteTopicsResponseV0TopicErrorCode) (a : Int)
    (ha : isInt32 a) :
    es.foldl (fun s x => wrapInt32 (s + x.size)) a
      = wrapInt32 (a + (itemsBytes es).length) := by
  induction es generalizing a with
  | nil => simp [itemsBytes, wrapInt32_of_isInt32 a ha]
  | cons e es ih =>
    have hl : ((itemsBytes (e :: es)).length : Int)
        = 4 + e.Topic.length + (itemsBytes es).length := by
      simp [itemsBytes, itemBytes_length]
    rw [List.foldl_cons, ih _ (isInt32_wrapInt32 _), hl, item_size_wrap]
    simp only [wrapInt32]
    omega

theorem response_size_wrap (t : deleteTopicsResponse) :
    t.size = wrapInt32 ((t.writeTo []).length) := by
  rw [response_writeTo_eq]
  unfold deleteTopicsResponse.size sizeofArray sizeofInt32
  have h4 : isInt32 4 := by decide
  by_cases hv : t.v ≥ v1
  · simp only [hv, if_true, List.nil_append, List.length_append, be32_length]
    rw [sizeofArray_foldl_wrap _ 4 h4]
    push_cast
    simp only [wrapInt32]
    omega
  · simp only [hv, if_false, List.nil_append, List.append_nil, List.length_append, be32_length]
    rw [sizeofArray_foldl_wrap _ 4 h4]
    push_cast
    rfl

theorem response_size_le_written (t : deleteTopicsResponse) :
    t.size ≤ (t.writeTo []).length := by
  rw [response_size_wrap]
  simp only [wrapInt32]
  omega

/-- C12: truncation. For every well-typed response with fewer than 2^31 items
and topic names of at most 32767 bytes, and every budget `n < t.size()` (in
particular `0 <= n < t.size()`), `readFrom` over the bytes `writeTo` produced
returns an error: it never reports success on a budget that ends before the
value does. -/
theorem readFrom_truncated (t : deleteTopicsResponse) (hty : t.wellTyped)
    (hn : t.TopicErrorCodes.length < 2147483648)
    (hs : ∀ e ∈ t.TopicErrorCodes, e.Topic.length ≤ 32767)
    (n : Int) (hlt : n < t.size) :
    ((deleteTopicsResponse.fresh t.v).readFrom (t.writeTo []) n).err ≠ none := by
  intro herr
  obtain ⟨thr, es, wire, rest, _, _, hfit, hall⟩ := readFrom_ok _ (t.writeTo []) n herr
  have hle := response_size_le_written t
  have hfull := readFrom_writeTo_general t (deleteTopicsResponse.fresh t.v) []
    (t.writeTo []).length rfl hty hn hs (le_refl _)
  rw [List.append_nil, hall _ (by omega)] at hfull
  have hrem := congrArg Rd.remain hfull
  simp only at hrem
  omega

/-- Witness of C12: the 20-byte sample read with a budget of 19 fails. -/
theorem readFrom_truncated_witness :
    (0 : Int) ≤ 19 ∧ (19 : Int) < sampleResponseV1.size ∧
    ((deleteTopicsResponse.fresh 1).readFrom (sampleResponseV1.writeTo []) 19).err ≠ none :=
  ⟨by decide, by decide,
    readFrom_truncated sampleResponseV1 sampleResponseV1_wellTyped (by decide)
      (by simp [sampleResponseV1, topicT1, topicT2]) 19 (by decide)⟩

/-! ## Malformed length prefixes -/

theorem readArrayLoop_add_ok {σ : Type} (cb : σ → List Byte → Int → Rd σ) (k j : Nat)
    (t t2 : σ) (r r2 : List Byte) (sz m : Int)
    (h : readArrayLoop cb k t r sz = ⟨t2, r2, m, none⟩) :
    readArrayLoop cb (k + j) t r sz = readArrayLoop cb j t2 r2 m := by
  induction k generalizing t r sz with
  | zero =>
    simp only [readArrayLoop, Rd.mk.injEq, and_true] at h
    obtain ⟨rfl, rfl, rfl⟩ := h
    rw [Nat.zero_add]
  | succ k ih =>
    have hk : k + 1 + j = (k + j) + 1 := by omega
    rw [hk]
    have e1 : ∀ n, readArrayLoop cb (n + 1) t r sz
        = match (cb t r sz).err with
          | some e => ⟨(cb t r sz).val, (cb t r sz).rest, (cb t r sz).remain, some e⟩
          | none => readArrayLoop cb n (cb t r sz).val (cb t r sz).rest (cb t r sz).remain :=
      fun _ => rfl
    rw [e1] at h ⊢
    cases hx : (cb t r sz).err with
    | some e =>
      rw [hx] at h
      simp at h
    | none =>
      rw [hx] at h
      exact ih _ _ _ h

theorem readArrayLoop_err_of_first {σ : Type} (cb : σ → List Byte → Int → Rd σ) (j : Nat)
    (t : σ) (r : List Byte) (sz : Int) (h : (cb t r sz).err ≠ none) :
    (readArrayLoop cb (j + 1) t r sz).err ≠ none := by
  unfold readArrayLoop
  dsimp only
  cases hx : (cb t r sz).err with
  | none => exact absurd hx h
  | some e => simp

theorem readString_malformed (l0 l1 : Byte) (rest v : List Byte) (m : Int)
    (hbad : malformedPrefix (makeInt16 l0 l1) (m - 2)) :
    (readString (l0 :: l1 :: rest) m v).err ≠ none := by
  intro h
  obtain ⟨b0, b1, body, rest1, hr, _, hL, hfit, _⟩ := readString_ok _ m v h
  simp only [List.cons.injEq] at hr
  obtain ⟨rfl, rfl, _⟩ := hr
  unfold malformedPrefix at hbad
  omega

theorem item_readFrom_malformed (d : deleteTopicsResponseV0TopicErrorCode) (l0 l1 : Byte)
    (rest : List Byte) (m : Int) (hbad : malformedPrefix (makeInt16 l0 l1) (m - 2)) :
    (d.readFrom (l0 :: l1 :: rest) m).err ≠ none := by
  have hs := readString_malformed l0 l1 rest d.Topic m hbad
  unfold deleteTopicsResponseV0TopicErrorCode.readFrom
  dsimp only
  cases hx : (readString (l0 :: l1 :: rest) m d.Topic).err with
  | none => exact absurd hx hs
  | some e => simp

theorem readItem_malformed (t : deleteTopicsResponse) (l0 l1 : Byte)
    (rest : List Byte) (m : Int) (hbad : malformedPrefix (makeInt16 l0 l1) (m - 2)) :
    (t.readItem (l0 :: l1 :: rest) m).err ≠ none := by
  have hs := item_readFrom_malformed { Topic := [], ErrorCode := 0 } l0 l1 rest m hbad
  unfold deleteTopicsResponse.readItem
  dsimp only
  cases hx : (({ Topic := [], ErrorCode := 0 } :
      deleteTopicsResponseV0TopicErrorCode).readFrom (l0 :: l1 :: rest) m).err with
  | none => exact absurd hx hs
  | some e => simp

theorem readArrayWith_short (t : deleteTopicsResponse) (r : List Byte) (sz : Int) (h : sz < 4) :
    (readArrayWith r sz t deleteTopicsResponse.readItem).err ≠ none := by
  unfold readArrayWith
  simp [readInt32, h]

theorem readArrayWith_count_malformed (t : deleteTopicsResponse) (c0 c1 c2 c3 : Byte)
    (q : List Byte) (sz : Int) (hbad : malformedPrefix (makeInt32 c0 c1 c2 c3) (sz - 4)) :
    (readArrayWith (c0 :: c1 :: c2 :: c3 :: q) sz t deleteTopicsResponse.readItem).err
      ≠ none := by
  by_cases hsz : sz < 4
  · exact readArrayWith_short t _ sz hsz
  · obtain ⟨n, hn⟩ : ∃ n, makeInt32 c0 c1 c2 c3 = n := ⟨_, rfl⟩
    rw [hn] at hbad
    unfold malformedPrefix at hbad
    rw [readArrayWith_count t c0 c1 c2 c3 q sz n hn (by omega)]
    have h1 : ¬ (n = -1) := by omega
    rw [if_neg h1]
    by_cases h2 : n < 0
    · rw [if_pos h2]; simp
    · have h3 : n > sz - 4 := by omega
      rw [if_neg h2, if_pos h3]; simp

theorem readArrayWith_name_malformed (t t2 : deleteTopicsResponse) (c0 c1 c2 c3 l0 l1 : Byte)
    (q rest : List Byte) (sz m : Int) (k : Nat)
    (hk : (k : Int) < makeInt32 c0 c1 c2 c3)
    (hloop : readArrayLoop deleteTopicsResponse.readItem k t q (sz - 4)
      = ⟨t2, l0 :: l1 :: rest, m, none⟩)
    (hbad : malformedPrefix (makeInt16 l0 l1) (m - 2)) :
    (readArrayWith (c0 :: c1 :: c2 :: c3 :: q) sz t deleteTopicsResponse.readItem).err
      ≠ none := by
  by_cases hsz : sz < 4
  · exact readArrayWith_short t _ sz hsz
  · obtain ⟨n, hn⟩ : ∃ n, makeInt32 c0 c1 c2 c3 = n := ⟨_, rfl⟩
    rw [hn] at hk
    rw [readArrayWith_count t c0 c1 c2 c3 q sz n hn (by omega)]
    have h1 : ¬ (n = -1) := by omega
    have h2 : ¬ (n < 0) := by omega
    rw [if_neg h1, if_neg h2]
    by_cases h3 : n > sz - 4
    · rw [if_pos h3]; simp
    · rw [if_neg h3]
      obtain ⟨j, hj⟩ : ∃ j, n.toNat = k + (j + 1) := ⟨n.toNat - k - 1, by omega⟩
      rw [hj, readArrayLoop_add_ok _ k (j + 1) t t2 q _ (sz - 4) m hloop]
      exact readArrayLoop_err_of_first _ j t2 _ m (readItem_malformed t2 l0 l1 rest m hbad)

theorem readFrom_v0_eq (t : deleteTopicsResponse) (r : List Byte) (sz : Int)
    (hv : ¬ t.v ≥ v1) :
    t.readFrom r sz = readArrayWith r sz t deleteTopicsResponse.readItem := by
  unfold deleteTopicsResponse.readFrom
  rw [if_neg hv]

theorem readFrom_v1_eq (t : deleteTopicsResponse) (b0 b1 b2 b3 : Byte) (q : List Byte)
    (sz : Int) (hv : t.v ≥ v1) (hsz : 4 ≤ sz) :
    t.readFrom (b0 :: b1 :: b2 :: b3 :: q) sz
      = readArrayWith q (sz - 4) { t with ThrottleTime := makeInt32 b0 b1 b2 b3 }
          deleteTopicsResponse.readItem := by
  have hlt : ¬ sz < 4 := by omega
  unfold deleteTopicsResponse.readFrom
  rw [if_pos hv]
  simp only [readInt32, hlt, if_false]

theorem readFrom_v1_short (t : deleteTopicsResponse) (r : List Byte) (sz : Int)
    (hv : t.v ≥ v1) (hsz : sz < 4) : (t.readFrom r sz).err ≠ none := by
  unfold deleteTopicsResponse.readFrom
  rw [if_pos hv]
  simp [readInt32, hsz]

/-- C13: malformed length prefixes are rejected. `readFrom` returns an error
whenever the four-byte element count is negative other than `-1` or exceeds
the budget left after it, and whenever, the count and `k` items having been
read, the two-byte length of the next topic name is negative other than `-1`
or exceeds the budget left after it; at version 0 the count comes first, at
version 1 or above it follows the four bytes of the throttle time. -/
theorem malformed_prefix_rejected :
    (∀ (t : deleteTopicsResponse) (c0 c1 c2 c3 : Byte) (q : List Byte) (sz : Int),
      ¬ t.v ≥ v1 → malformedPrefix (makeInt32 c0 c1 c2 c3) (sz - 4) →
      (t.readFrom (c0 :: c1 :: c2 :: c3 :: q) sz).err ≠ none) ∧
    (∀ (t : deleteTopicsResponse) (b0 b1 b2 b3 c0 c1 c2 c3 : Byte) (q : List Byte) (sz : Int),
      t.v ≥ v1 → malformedPrefix (makeInt32 c0 c1 c2 c3) (sz - 8) →
      (t.readFrom (b0 :: b1 :: b2 :: b3 :: c0 :: c1 :: c2 :: c3 :: q) sz).err ≠ none) ∧
    (∀ (t t2 : deleteTopicsResponse) (c0 c1 c2 c3 l0 l1 : Byte) (q rest : List Byte)
        (sz m : Int) (k : Nat),
      ¬ t.v ≥ v1 → (k : Int) < makeInt32 c0 c1 c2 c3 →
      readArrayLoop deleteTopicsResponse.readItem k t q (sz - 4)
        = ⟨t2, l0 :: l1 :: rest, m, none⟩ →
      malformedPrefix (makeInt16 l0 l1) (m - 2) →
      (t.readFrom (c0 :: c1 :: c2 :: c3 :: q) sz).err ≠ none) ∧
    (∀ (t t2 : deleteTopicsResponse) (b0 b1 b2 b3 c0 c1 c2 c3 l0 l1 : Byte)
        (q rest : List Byte) (sz m : Int) (k : Nat),
      t.v ≥ v1 → (k : Int) < makeInt32 c0 c1 c2 c3 →
      readArrayLoop deleteTopicsResponse.readItem k
          { t with ThrottleTime := makeInt32 b0 b1 b2 b3 } q (sz - 8)
        = ⟨t2, l0 :: l1 :: rest, m, none⟩ →
      malformedPrefix (makeInt16 l0 l1) (m - 2) →
      (t.readFrom (b0 :: b1 :: b2 :: b3 :: c0 :: c1 :: c2 :: c3 :: q) sz).err ≠ none) := by
  refine ⟨?_, ?_, ?_, ?_⟩
  · intro t c0 c1 c2 c3 q sz hv hbad
    rw [readFrom_v0_eq t _ sz hv]
    exact readArrayWith_count_malformed t c0 c1 c2 c3 q sz hbad
  · intro t b0 b1 b2 b3 c0 c1 c2 c3 q sz hv hbad
    by_cases hsz : sz < 4
    · exact readFrom_v1_short t _ sz hv hsz
    · rw [readFrom_v1_eq t b0 b1 b2 b3 _ sz hv (by omega)]
      have h8 : sz - 8 = sz - 4 - 4 := by omega
      rw [h8] at hbad
      exact readArrayWith_count_malformed _ c0 c1 c2 c3 q (sz - 4) hbad
  · intro t t2 c0 c1 c2 c3 l0 l1 q rest sz m k hv hk hloop hbad
    rw [readFrom_v0_eq t _ sz hv]
    exact readArrayWith_name_malformed t t2 c0 c1 c2 c3 l0 l1 q rest sz m k hk hloop hbad
  · intro t t2 b0 b1 b2 b3 c0 c1 c2 c3 l0 l1 q rest sz m k hv hk hloop hbad
    by_cases hsz : sz < 4
    · exact readFrom_v1_short t _ sz hv hsz
    · rw [readFrom_v1_eq t b0 b1 b2 b3 _ sz hv (by omega)]
      have h8 : sz - 8 = sz - 4 - 4 := by omega
      rw [h8] at hloop
      exact readArrayWith_name_malformed _ t2 c0 c1 c2 c3 l0 l1 q rest (sz - 4) m k hk hloop hbad

/-- Witness of C13: the count `-2` is refused, and so is the name length 32767
of the second item when no budget is left after it. -/
theorem malformed_prefix_rejected_witness :
    ((deleteTopicsResponse.fresh v0).readFrom sampleBadCount 4).err ≠ none ∧
    ((deleteTopicsResponse.fresh v0).readFrom sampleBadName 12).err ≠ none :=
  ⟨malformed_prefix_rejected.1 (deleteTopicsResponse.fresh v0) 255 255 255 254 [] 4
      (by decide) (by decide),
    malformed_prefix_rejected.2.2.1 (deleteTopicsResponse.fresh v0)
      { v := v0, ThrottleTime := 0, TopicErrorCodes := [{ Topic := topicT1, ErrorCode := 0 }] }
      0 0 0 2 127 255 [0, 2, 116, 49, 0, 0, 127, 255] [] 12 2 1
      (by decide) (by decide) (by decide) (by decide)⟩

/-! ## The null sequence -/

/-- C14: a null sequence decodes to empty. When the element count read from
the input is `-1` and the budget covers the count (and, at `v1`, the throttle
time before it), `readFrom` on a fresh response returns no error, leaves
`TopicErrorCodes` empty, and consumes only the throttle time (at `v1`) and
the four bytes of the count. -/
theorem null_sequence_decodes_empty (b0 b1 b2 b3 c0 c1 c2 c3 : Byte) (q : List Byte) (sz : Int)
    (hc : makeInt32 c0 c1 c2 c3 = -1) :
    (4 ≤ sz →
      (deleteTopicsResponse.fresh v0).readFrom (c0 :: c1 :: c2 :: c3 :: q) sz
        = ⟨{ v := v0, ThrottleTime := 0, TopicErrorCodes := [] }, q, sz - 4, none⟩) ∧
    (8 ≤ sz →
      (deleteTopicsResponse.fresh v1).readFrom
          (b0 :: b1 :: b2 :: b3 :: c0 :: c1 :: c2 :: c3 :: q) sz
        = ⟨{ v := v1, ThrottleTime := makeInt32 b0 b1 b2 b3, TopicErrorCodes := [] }, q,
            sz - 8, none⟩) := by
  constructor
  · intro hsz
    rw [readFrom_v0_eq _ _ sz (by decide),
      readArrayWith_count _ c0 c1 c2 c3 q sz (-1) hc hsz, if_pos rfl]
    rfl
  · intro hsz
    rw [readFrom_v1_eq _ b0 b1 b2 b3 _ sz (by decide) (by omega),
      readArrayWith_count _ c0 c1 c2 c3 q (sz - 4) (-1) hc (by omega), if_pos rfl]
    have h8 : sz - 4 - 4 = sz - 8 := by omega
    rw [h8]
    rfl

/-- Witness of C14: the count bytes `ff ff ff ff`, alone at version 0 and after
the throttle bytes `00 00 00 64` at version 1, with one further byte. -/
theorem null_sequence_decodes_empty_witness :
    makeInt32 255 255 255 255 = -1 ∧
    (deleteTopicsResponse.fresh v0).readFrom [255, 255, 255, 255, 9] 5
      = ⟨{ v := v0, ThrottleTime := 0, TopicErrorCodes := [] }, [9], 1, none⟩ ∧
    (deleteTopicsResponse.fresh v1).readFrom [0, 0, 0, 100, 255, 255, 255, 255, 9] 9
      = ⟨{ v := v1, ThrottleTime := 100, TopicErrorCodes := [] }, [9], 1, none⟩ :=
  ⟨by decide,
    (null_sequence_decodes_empty 0 0 0 100 255 255 255 255 [9] 5 (by decide)).1 (by decide),
    (null_sequence_decodes_empty 0 0 0 100 255 255 255 255 [9] 9 (by decide)).2 (by decide)⟩

/-! ## The request body -/

theorem stringsBytes_length_cons (s : List Byte) (a : List (List Byte)) :
    ((stringsBytes (s :: a)).length : Int) = 2 + s.length + (stringsBytes a).length := by
  simp only [stringsBytes, List.length_append, be16_length]
  push_cast
  omega

theorem foldl_writeString (a : List (List Byte)) (wb : List Byte) :
    a.foldl writeString wb = wb ++ stringsBytes a := by
  induction a generalizing wb with
  | nil => simp [stringsBytes]
  | cons s a ih =>
    rw [List.foldl_cons, ih]
    simp only [writeString, writeInt16, stringsBytes, List.append_assoc]

theorem request_writeTo_eq (t : deleteTopicsRequest) (wb : List Byte) :
    t.writeTo wb
      = wb ++ be32 (wrapInt32 t.Topics.length) ++ stringsBytes t.Topics ++ be32 t.Timeout := by
  simp only [deleteTopicsRequest.writeTo, writeStringArray, writeArray, writeInt32,
    foldl_writeString]

theorem stringsBytes_eq_flatten (a : List (List Byte)) :
    stringsBytes a = (a.map fun s => bigEndian 2 s.length ++ s).flatten := by
  induction a with
  | nil => rfl
  | cons s a ih =>
    simp only [stringsBytes, List.map_cons, List.flatten_cons, ih, bigEndian_two, be16_wrapInt16]

theorem sizeofStringArray_foldl (a : List (List Byte)) (acc : Int) (hacc : 0 ≤ acc)
    (h : acc + ((stringsBytes a).length : Int) < 2147483648) :
    a.foldl (fun s x => wrapInt32 (s + sizeofString x)) acc = acc + (stringsBytes a).length := by
  induction a generalizing acc with
  | nil => simp [stringsBytes]
  | cons s a ih =>
    have hl := stringsBytes_length_cons s a
    rw [hl] at h ⊢
    have hw : wrapInt32 (acc + sizeofString s) = acc + (2 + s.length) := by
      simp only [sizeofString, wrapInt32]
      omega
    rw [List.foldl_cons, hw, ih _ (by omega) (by omega)]
    omega

/-- C15: request body size and layout. For every request, `writeTo` appends the
topic-name array (the four-byte count, then each name as its two-byte length
and its bytes, in list order) followed by the four-byte big-endian `Timeout`;
and when the encoding is shorter than 2^31 bytes `size` is exactly the number
of bytes written. -/
theorem request_layout_and_size (t : deleteTopicsRequest) (wb : List Byte)
    (hlen : ((t.writeTo []).length : Int) < 2147483648) :
    t.writeTo wb = wb ++ specRequestBody t ∧
    t.size = ((t.writeTo wb).length : Int) - wb.length := by
  constructor
  · rw [request_writeTo_eq, specRequestBody, stringsBytes_eq_flatten, bigEndian_four,
      bigEndian_four, be32_wrapInt32]
    simp only [List.append_assoc]
  · rw [request_writeTo_eq] at hlen ⊢
    simp only [List.nil_append, List.length_append, be32_length] at hlen ⊢
    push_cast at hlen ⊢
    unfold deleteTopicsRequest.size sizeofStringArray sizeofArray sizeofInt32
    rw [sizeofStringArray_foldl _ 4 (by omega) (by omega),
      wrapInt32_of_isInt32 _ (by unfold isInt32; omega)]
    omega

/-- Witness of C15: deleting `t1` with timeout `-1` is the twelve bytes
`00 00 00 01 00 02 74 31 ff ff ff ff`, and `size` is 12. -/
theorem request_layout_and_size_witness :
    sampleRequestNegative.writeTo [] = [0, 0, 0, 1, 0, 2, 116, 49, 255, 255, 255, 255] ∧
    specRequestBody sampleRequestNegative = [0, 0, 0, 1, 0, 2, 116, 49, 255, 255, 255, 255] ∧
    sampleRequestNegative.size = 12 :=
  have h := request_layout_and_size sampleRequestNegative [] (by decide)
  ⟨by decide, by decide, h.2.trans (by decide)⟩

/-! ## One topic entry -/

/-- C16: round trip of one topic entry. For every entry with an `int16` error
code and a topic name of at most 32767 bytes, and every budget `n >= e.size()`,
`readFrom` over the bytes of `e.writeTo` followed by any further bytes returns
no error, sets `Topic` and `ErrorCode` to the values of `e`, leaves the further
bytes unread and returns `remain = n - e.size()`, where
`e.size() = 2 + len(Topic) + 2`. -/
theorem item_roundtrip (e d : deleteTopicsResponseV0TopicErrorCode) (rest : List Byte)
    (n : Int) (hty : e.wellTyped) (hs : e.Topic.length ≤ 32767) (hn : e.size ≤ n) :
    d.readFrom (e.writeTo [] ++ rest) n = ⟨e, rest, n - e.size, none⟩ ∧
    e.size = 2 + (e.Topic.length : Int) + 2 := by
  have hsize := item_size_eq e (by omega)
  rw [hsize] at hn ⊢
  rw [item_writeTo_eq, List.nil_append]
  exact ⟨item_readFrom_itemBytes e d rest n hty hs hn, by omega⟩

/-- Witness of C16: the entry `t2 -> 3` is six bytes plus the name; read with a
budget of 9 before two further bytes it leaves `remain = 3`. -/
theorem item_roundtrip_witness :
    ({ Topic := topicT2, ErrorCode := 3 } : deleteTopicsResponseV0TopicErrorCode).size = 6 ∧
    ({ Topic := [], ErrorCode := 0 } : deleteTopicsResponseV0TopicErrorCode).readFrom
        (({ Topic := topicT2, ErrorCode := 3 } : deleteTopicsResponseV0TopicErrorCode).writeTo []
          ++ [7, 8]) 9
      = ⟨{ Topic := topicT2, ErrorCode := 3 }, [7, 8], 3, none⟩ :=
  have h := item_roundtrip { Topic := topicT2, ErrorCode := 3 } { Topic := [], ErrorCode := 0 }
    [7, 8] 9 (by decide) (by decide) (by decide)
  ⟨by decide, h.1.trans (by decide)⟩

/-! ## Budget accounting -/

theorem itemsBytes_replicate_length (n : Nat) (e : deleteTopicsResponseV0TopicErrorCode) :
    ((itemsBytes (List.replicate n e)).length : Int) = n * (4 + (e.Topic.length : Int)) := by
  induction n with
  | zero => simp [itemsBytes]
  | succ n ih =>
    rw [List.replicate_succ, itemsBytes, List.length_append, itemBytes_length]
    push_cast
    rw [ih]
    ring

theorem bigEntry_length : bigEntry.Topic.length = 32767 := by
  unfold bigEntry
  exact List.length_replicate _ _

theorem written_length_v0 (thr : Int) (es : List deleteTopicsResponseV0TopicErrorCode) :
    (((({ v := 0, ThrottleTime := thr, TopicErrorCodes := es } : deleteTopicsResponse).writeTo
      []).length : Nat) : Int) = 4 + (itemsBytes es).length := by
  have hv : ¬ ((0 : Int) ≥ v1) := by decide
  rw [response_writeTo_eq]
  simp only [hv, if_false, List.nil_append, List.append_nil, List.length_append, be32_length]
  push_cast
  rfl

theorem bigResponse_written : ((bigResponse.writeTo []).length : Int) = 2147713031 := by
  unfold bigResponse
  rw [written_length_v0, itemsBytes_replicate_length, bigEntry_length]
  norm_num

theorem bigResponse_wellTyped : bigResponse.wellTyped := by
  refine ⟨by decide, by decide, ?_⟩
  intro e he
  have hi : bigResponse.TopicErrorCodes = List.replicate 65537 bigEntry := rfl
  rw [hi] at he
  rw [List.eq_of_mem_replicate he]
  unfold deleteTopicsResponseV0TopicErrorCode.wellTyped
  decide

/-- C17, as stated, fails beyond `int32`: the version-0 response of 65537
entries with names of 32767 bytes encodes to 2147713031 bytes; read back with
that budget it decodes without error, every count and length prefix being
non-negative, with `remain = 0`, so 2147713031 bytes were consumed, while
`size()` of the decoded response, an `int32`, is `-2147254265`. -/
theorem accounting_fails_beyond_int32 :
    (deleteTopicsResponse.fresh v0).readFrom (bigResponse.writeTo []) 2147713031
      = ⟨bigResponse, [], 0, none⟩ ∧
    bigResponse.size = -2147254265 ∧
    (2147713031 : Int) - 0 ≠ -2147254265 := by
  have hn : bigResponse.TopicErrorCodes.length < 2147483648 := by
    have hi : bigResponse.TopicErrorCodes = List.replicate 65537 bigEntry := rfl
    rw [hi, List.length_replicate]
    norm_num
  have hs : ∀ e ∈ bigResponse.TopicErrorCodes, e.Topic.length ≤ 32767 := by
    intro e he
    have hi : bigResponse.TopicErrorCodes = List.replicate 65537 bigEntry := rfl
    rw [hi] at he
    rw [List.eq_of_mem_replicate he, bigEntry_length]
  have h := readFrom_writeTo_general bigResponse (deleteTopicsResponse.fresh v0) [] 2147713031
    rfl bigResponse_wellTyped hn hs (by rw [bigResponse_written])
  have hv : ¬ (bigResponse.v ≥ v1) := by decide
  rw [List.append_nil, bigResponse_written, if_neg hv] at h
  refine ⟨?_, ?_, by norm_num⟩
  · rw [h]
    have h0 : (2147713031 : Int) - 2147713031 = 0 := by norm_num
    rw [h0]
    rfl
  · rw [response_size_wrap, bigResponse_written]
    unfold wrapInt32
    norm_num

/-- C17, amended: budget accounting of the decoder. For every byte input, every
budget and every version, if `readFrom` on a fresh response returns no error
then `0 <= remain <= size`, and `size - remain`, the number of bytes consumed,
equals `size()` of the decoded response whenever it is below 2^31; in general
`size()` is that number wrapped to an `int32`. -/
theorem readFrom_accounting (version : apiVersion) (r : List Byte) (sz : Int)
    (hok : ((deleteTopicsResponse.fresh version).readFrom r sz).err = none) :
    0 ≤ ((deleteTopicsResponse.fresh version).readFrom r sz).remain ∧
    ((deleteTopicsResponse.fresh version).readFrom r sz).remain ≤ sz ∧
    (sz - ((deleteTopicsResponse.fresh version).readFrom r sz).remain < 2147483648 →
      sz - ((deleteTopicsResponse.fresh version).readFrom r sz).remain
        = ((deleteTopicsResponse.fresh version).readFrom r sz).val.size) ∧
    ((deleteTopicsResponse.fresh version).readFrom r sz).val.size
      = wrapInt32 (sz - ((deleteTopicsResponse.fresh version).readFrom r sz).remain) := by
  obtain ⟨thr, es, wire, rest, _, hlen, hfit, hall⟩ := readFrom_ok _ r sz hok
  rw [hall sz hfit]
  dsimp only
  have key : ∀ d : deleteTopicsResponse, d.v = version → d.TopicErrorCodes = es →
      d.size = wrapInt32 wire.length := by
    intro d hdv hde
    have hw : ((d.writeTo []).length : Int) = wire.length := by
      rw [response_writeTo_eq, hlen, hde, hdv]
      have hf : (deleteTopicsResponse.fresh version).v = version := rfl
      rw [hf]
      by_cases hv : version ≥ v1
      · simp only [hv, if_true, List.nil_append, List.length_append, be32_length]
        push_cast
        omega
      · simp only [hv, if_false, List.nil_append, List.append_nil, List.length_append,
          be32_length]
        push_cast
        omega
    rw [response_size_wrap, hw]
  have hsize := key ⟨(deleteTopicsResponse.fresh version).v, thr,
    (deleteTopicsResponse.fresh version).TopicErrorCodes ++ es⟩ rfl rfl
  have hsub : sz - (sz - (wire.length : Int)) = wire.length := by omega
  rw [hsub, hsize]
  refine ⟨by omega, by omega, ?_, rfl⟩
  intro hlt
  exact (wrapInt32_of_isInt32 _ (by unfold isInt32; omega)).symm

/-- Witness of the amended C17: the 20-byte sample read with a budget of 25
leaves 5, and 20 is `size()` of what was decoded. -/
theorem readFrom_accounting_witness :
    ((deleteTopicsResponse.fresh v1).readFrom (sampleResponseV1.writeTo []) 25).err = none ∧
    ((deleteTopicsResponse.fresh v1).readFrom (sampleResponseV1.writeTo []) 25).remain = 5 ∧
    ((deleteTopicsResponse.fresh v1).readFrom (sampleResponseV1.writeTo []) 25).val.size = 20 :=
  have h := readFrom_accounting v1 (sampleResponseV1.writeTo []) 25 (by decide)
  ⟨by decide, by decide, h.2.2.2.trans (by decide)⟩

/-! ## The request that is written -/

/-- C18: an explicit timeout is sent unchanged. Once a version is negotiated,
the write phase hands exactly one request to `writeRequest`; when the caller's
`Timeout` is not zero, positive or negative, that request is the caller's, with
the same `Timeout` and the same `Topics`, for every deadline; its `Timeout`
differs from the caller's only when the caller's is zero, and its `Topics` are
always the caller's. -/
theorem explicit_timeout_sent_unchanged (c : Conn) (req : deleteTopicsRequest)
    (version : apiVersion) (hneg : c.negotiateVersion = .ok version) :
    (req.Timeout ≠ 0 → (c.deleteTopics req).sent = some req) ∧
    ∃ r, (c.deleteTopics req).sent = some r ∧
      (c.writePhase version ⟨req, deleteTopicsResponse.fresh version, none⟩
        c.deadline c.id).2 = c.writeRequest version c.id r ∧
      r.Topics = req.Topics ∧
      (r.Timeout ≠ req.Timeout → req.Timeout = 0) := by
  rw [deleteTopics_sent c req version hneg]
  unfold Conn.writePhase
  dsimp only
  by_cases h : req.Timeout = 0
  · refine ⟨fun hne => absurd h hne, ?_⟩
    rw [if_pos h]
    exact ⟨_, rfl, rfl, rfl, fun _ => h⟩
  · refine ⟨fun _ => by rw [if_neg h], ?_⟩
    rw [if_neg h]
    exact ⟨req, rfl, rfl, rfl, fun hne => absurd rfl hne⟩

/-- Witness of C18: a five-second timeout is sent as it is, whatever the deadline. -/
theorem explicit_timeout_sent_unchanged_witness :
    ((sampleConn v1 (some 500000000) sampleFrameV1).deleteTopics samplePositive).sent
      = some samplePositive ∧
    ((sampleConn v0 none sampleFrameV1).deleteTopics samplePositive).sent
      = some samplePositive :=
  ⟨(explicit_timeout_sent_unchanged (sampleConn v1 (some 500000000) sampleFrameV1)
      samplePositive v1 rfl).1 (by decide),
    (explicit_timeout_sent_unchanged (sampleConn v0 none sampleFrameV1)
      samplePositive v0 rfl).1 (by decide)⟩

/-! ## The result map follows the response -/

theorem ErrorMap.keys_set (m : ErrorMap) (k : List Byte) (x : Option GoError) :
    (m.set k x).keys = ErrorMap.keys (m.filter (fun p => p.1 ≠ k)) ++ [k] := by
  simp [ErrorMap.keys, ErrorMap.set]

theorem ErrorMap.keys_filter_sublist (m : ErrorMap) (k : List Byte) :
    List.Sublist (ErrorMap.keys (m.filter (fun p => p.1 ≠ k))) m.keys := by
  unfold ErrorMap.keys
  exact List.Sublist.map _ (List.filter_sublist m)

theorem ErrorMap.nodup_keys_set (m : ErrorMap) (k : List Byte) (x : Option GoError)
    (h : m.keys.Nodup) : (m.set k x).keys.Nodup := by
  rw [ErrorMap.keys_set, List.nodup_append]
  refine ⟨h.sublist (ErrorMap.keys_filter_sublist m k), List.nodup_singleton k, ?_⟩
  intro a ha hk
  rw [List.mem_singleton] at hk
  subst hk
  simp only [ErrorMap.keys, List.mem_map, List.mem_filter] at ha
  obtain ⟨p, ⟨_, hp⟩, rfl⟩ := ha
  simp at hp

theorem ErrorMap.length_keys_set (m : ErrorMap) (k : List Byte) (x : Option GoError) :
    (m.set k x).keys.length ≤ m.keys.length + 1 := by
  rw [ErrorMap.keys_set, List.length_append, List.length_singleton]
  exact Nat.add_le_add_right (ErrorMap.keys_filter_sublist m k).length_le 1

theorem nodup_keys_fillErrors (rs : List ResponseTopic) (m : ErrorMap) (h : m.keys.Nodup) :
    (fillErrors rs m).keys.Nodup := by
  induction rs generalizing m with
  | nil => exact h
  | cons t ts ih =>
    rw [fillErrors_cons]
    exact ih _ (ErrorMap.nodup_keys_set m _ _ h)

theorem length_keys_fillErrors (rs : List ResponseTopic) (m : ErrorMap) :
    (fillErrors rs m).keys.length ≤ m.keys.length + rs.length := by
  induction rs generalizing m with
  | nil => exact Nat.le_refl _
  | cons t ts ih =>
    rw [fillErrors_cons]
    have h1 := ih (m.set t.Name (if t.ErrorCode = 0 then none else some (Error t.ErrorCode)))
    have h2 := ErrorMap.length_keys_set m t.Name
      (if t.ErrorCode = 0 then none else some (Error t.ErrorCode))
    simp only [List.length_cons]
    omega

theorem fillErrors_append (a b : List ResponseTopic) (m : ErrorMap) :
    fillErrors (a ++ b) m = fillErrors b (fillErrors a m) := by
  induction a generalizing m with
  | nil => rfl
  | cons t ts ih => rw [List.cons_append, fillErrors_cons, fillErrors_cons, ih]

theorem get?_fillErrors_last (pre post : List ResponseTopic) (t : ResponseTopic) (m : ErrorMap)
    (hpost : ∀ u ∈ post, u.Name ≠ t.Name) :
    (fillErrors (pre ++ t :: post) m).get? t.Name
      = some (if t.ErrorCode = 0 then none else some (Error t.ErrorCode)) := by
  have hnot : t.Name ∉ post.map (fun u => u.Name) := by
    intro hmem
    obtain ⟨u, hu, hname⟩ := List.mem_map.mp hmem
    exact hpost u hu hname
  rw [fillErrors_append, fillErrors_cons, get?_fillErrors_of_not_mem _ _ _ hnot,
    ErrorMap.get?_set, if_pos rfl]

/-- C19: the result map follows the response, last entry wins. Whenever
`roundTrip` succeeds, the keys of the `Errors` map built by `Client.DeleteTopics`
are exactly the names occurring in the response items, each once, so there are
at most `len(Responses)` of them; and for a name occurring in several items the
map holds the value of its last occurrence in response order, `nil` if that
code is 0 and `Error(code)` otherwise. -/
theorem DeleteTopics_last_wins (c : Client) (req : DeleteTopicsRequest) (res : ProtocolResponse)
    (h : c.roundTrip req.Addr { TopicNames := req.Topics, TimeoutMs := c.timeoutMs } = .ok res) :
    ∃ ret, c.DeleteTopics req = (some ret, none) ∧
      (∀ k, k ∈ ret.Errors.keys ↔ k ∈ res.Responses.map (fun t => t.Name)) ∧
      ret.Errors.keys.Nodup ∧
      ret.Errors.keys.length ≤ res.Responses.length ∧
      ∀ pre t post, res.Responses = pre ++ t :: post →
        (∀ u ∈ post, u.Name ≠ t.Name) →
        ret.Errors.get? t.Name
          = some (if t.ErrorCode = 0 then none else some (Error t.ErrorCode)) := by
  refine ⟨_, DeleteTopics_of_ok c req res h, ?_, ?_, ?_, ?_⟩
  · intro k
    rw [mem_keys_fillErrors]
    simp [ErrorMap.keys]
  · exact nodup_keys_fillErrors _ _ List.nodup_nil
  · have := length_keys_fillErrors res.Responses []
    simpa [ErrorMap.keys] using this
  · intro pre t post hsplit hpost
    dsimp only
    rw [hsplit]
    exact get?_fillErrors_last pre post t [] hpost

/-- Witness of C19: for the answer `t1 -> 3, t2 -> 0, t1 -> 0` the map has the
two keys `t2` and `t1`, and `t1` maps to `nil`, the value of its last item. -/
theorem DeleteTopics_last_wins_witness :
    (clientAnswering sampleAnswerRepeated).DeleteTopics sampleDelete
      = (some { Throttle := 0, Errors := [(topicT2, none), (topicT1, none)] }, none) ∧
    ∃ ret, (clientAnswering sampleAnswerRepeated).DeleteTopics sampleDelete = (some ret, none) ∧
      (∀ k, k ∈ ret.Errors.keys ↔ k ∈ sampleAnswerRepeated.Responses.map (fun t => t.Name)) ∧
      ret.Errors.keys.Nodup ∧
      ret.Errors.keys.length ≤ sampleAnswerRepeated.Responses.length ∧
      ∀ pre t post, sampleAnswerRepeated.Responses = pre ++ t :: post →
        (∀ u ∈ post, u.Name ≠ t.Name) →
        ret.Errors.get? t.Name
          = some (if t.ErrorCode = 0 then none else some (Error t.ErrorCode)) :=
  ⟨by decide,
    DeleteTopics_last_wins (clientAnswering sampleAnswerRepeated) sampleDelete
      sampleAnswerRepeated rfl⟩

/-! ## Version gating, in general -/

theorem itemsBytes_length_ge_four (es : List deleteTopicsResponseV0TopicErrorCode) :
    4 * (es.length : Int) ≤ (itemsBytes es).length := by
  induction es with
  | nil => simp [itemsBytes]
  | cons e es ih =>
    simp only [itemsBytes, List.length_cons, List.length_append, itemBytes_length]
    push_cast
    omega

theorem makeInt32_be16_ge (l : Int) (c2 c3 : Byte) (h1 : 1 ≤ l) (h2 : l ≤ 32767) :
    ∃ c0 c1, be16 l = [c0, c1] ∧ 65536 ≤ makeInt32 c0 c1 c2 c3 := by
  refine ⟨_, _, rfl, ?_⟩
  have h2b := c2.isLt
  have h3b := c3.isLt
  simp only [makeInt32, byteOf, wrapInt32]
  omega

/-- The first four bytes of the items of a version-0 encoding whose first topic
name is not empty, read as a count, are at least 65536. -/
theorem itemsBytes_head_count (e : deleteTopicsResponseV0TopicErrorCode)
    (rest : List deleteTopicsResponseV0TopicErrorCode)
    (h1 : 1 ≤ e.Topic.length) (h2 : e.Topic.length ≤ 32767) :
    ∃ c0 c1 c2 c3 q, itemsBytes (e :: rest) = c0 :: c1 :: c2 :: c3 :: q ∧
      65536 ≤ makeInt32 c0 c1 c2 c3 := by
  have hw : wrapInt16 (e.Topic.length : Int) = e.Topic.length :=
    wrapInt16_of_isInt16 _ (by unfold isInt16; omega)
  obtain ⟨k0, k1, hk⟩ : ∃ k0 k1, be16 e.ErrorCode = [k0, k1] := ⟨_, _, rfl⟩
  cases hT : e.Topic with
  | nil => rw [hT] at h1; simp at h1
  | cons a tl =>
    cases tl with
    | nil =>
      obtain ⟨c0, c1, hc, hge⟩ := makeInt32_be16_ge (e.Topic.length : Int) a k0
        (by omega) (by omega)
      refine ⟨c0, c1, a, k0, k1 :: itemsBytes rest, ?_, hge⟩
      simp only [itemsBytes, itemBytes]
      rw [hw, hc, hk, hT]
      simp only [List.cons_append, List.nil_append]
    | cons b tl2 =>
      obtain ⟨c0, c1, hc, hge⟩ := makeInt32_be16_ge (e.Topic.length : Int) a b
        (by omega) (by omega)
      refine ⟨c0, c1, a, b, tl2 ++ be16 e.ErrorCode ++ itemsBytes rest, ?_, hge⟩
      simp only [itemsBytes, itemBytes]
      rw [hw, hc, hT]
      simp only [List.cons_append, List.nil_append, List.append_assoc]

/-- Reading a count of at least 65536 needs at least `4 * 65536` bytes of
budget after the count for the items. -/
theorem readArrayWith_large_count (t : deleteTopicsResponse) (c0 c1 c2 c3 : Byte)
    (q : List Byte) (sz : Int) (hge : 65536 ≤ makeInt32 c0 c1 c2 c3)
    (hsz : sz < 262148) :
    (readArrayWith (c0 :: c1 :: c2 :: c3 :: q) sz t deleteTopicsResponse.readItem).err
      ≠ none := by
  by_cases h4 : sz < 4
  · exact readArrayWith_short t _ sz h4
  · obtain ⟨n, hn⟩ : ∃ n, makeInt32 c0 c1 c2 c3 = n := ⟨_, rfl⟩
    rw [hn] at hge
    rw [readArrayWith_count t c0 c1 c2 c3 q sz n hn (by omega)]
    have h1 : ¬ (n = -1) := by omega
    have h2 : ¬ (n < 0) := by omega
    rw [if_neg h1, if_neg h2]
    by_cases h3 : n > sz - 4
    · rw [if_pos h3]; simp
    · rw [if_neg h3]
      intro hok
      obtain ⟨es, w, _, hlen0, _, hlen, hfit, _⟩ :=
        readArrayLoop_ok _ t q (sz - 4) (by omega) hok
      have hge4 := itemsBytes_length_ge_four es
      have hcast : ((n.toNat : Nat) : Int) = n := by omega
      have hes : ((es.length : Nat) : Int) = n := by rw [hlen0]; exact hcast
      omega

theorem v0_written (t : deleteTopicsResponse) (hv : t.v = v0) :
    t.writeTo [] = be32 (wrapInt32 t.TopicErrorCodes.length) ++ itemsBytes t.TopicErrorCodes := by
  have h : ¬ (t.v ≥ v1) := by rw [hv]; decide
  rw [response_writeTo_eq, if_neg h]
  simp only [List.nil_append, List.append_nil]

/-- C4, amended: over the bytes `writeTo` produced at version 0, with the number
of bytes written as budget, the version-1 reader always takes the four-byte item
count as the throttle time. It then returns an error whenever the item list is
empty (the truncation error) and whenever the first topic name is not empty
(1 to 32767 bytes) and fewer than 262152 bytes were written: the first name's
length prefix is then read as a count of at least 65536 items, which
`4 * 65536` bytes cannot hold. -/
theorem v1_reader_on_v0_bytes (t : deleteTopicsResponse) (hv : t.v = v0) :
    ((deleteTopicsResponse.fresh v1).readFrom (t.writeTo [])
        (t.writeTo []).length).val.ThrottleTime = wrapInt32 t.TopicErrorCodes.length ∧
    (t.TopicErrorCodes = [] →
      ((deleteTopicsResponse.fresh v1).readFrom (t.writeTo [])
        (t.writeTo []).length).err = some GoError.shortRead) ∧
    (∀ e rest, t.TopicErrorCodes = e :: rest →
      1 ≤ e.Topic.length → e.Topic.length ≤ 32767 → (t.writeTo []).length < 262152 →
      ((deleteTopicsResponse.fresh v1).readFrom (t.writeTo [])
        (t.writeTo []).length).err ≠ none) := by
  have hb := v0_written t hv
  have hv1 : (deleteTopicsResponse.fresh v1).v ≥ v1 := by decide
  refine ⟨?_, ?_, ?_⟩
  · rw [hb]
    simp only [List.length_append, be32_length]
    unfold deleteTopicsResponse.readFrom
    simp only [hv1, if_true]
    have hr := readInt32_be32 (wrapInt32 t.TopicErrorCodes.length) (isInt32_wrapInt32 _)
      (itemsBytes t.TopicErrorCodes)
      ((4 + (itemsBytes t.TopicErrorCodes).length : Nat) : Int)
      (deleteTopicsResponse.fresh v1).ThrottleTime (by push_cast; omega)
    simp only [hr]
    exact (readArrayWith_frame _ _ _).2
  · intro he
    rw [hb, he]
    rfl
  · intro e rest he h1 h2 hlt
    rw [hb, he] at hlt ⊢
    obtain ⟨c0, c1, c2, c3, q, hq, hge⟩ := itemsBytes_head_count e rest h1 h2
    obtain ⟨b0, b1, b2, b3, hbe⟩ : ∃ b0 b1 b2 b3,
        be32 (wrapInt32 ((e :: rest).length : Nat)) = [b0, b1, b2, b3] := ⟨_, _, _, _, rfl⟩
    rw [hq, hbe] at hlt ⊢
    simp only [List.cons_append, List.nil_append, List.length_cons] at hlt ⊢
    rw [readFrom_v1_eq _ b0 b1 b2 b3 _ _ hv1 (by push_cast; omega)]
    exact readArrayWith_large_count _ c0 c1 c2 c3 q _ hge (by push_cast; omega)

/-- Witness of the amended C4: the version-0 encoding of `t1 -> 0, t2 -> 3`,
16 bytes, is refused by the version-1 reader, which has taken the count 2 as
the throttle time. -/
theorem v1_reader_on_v0_bytes_witness :
    sampleNamedV0.v = v0 ∧
    ((deleteTopicsResponse.fresh v1).readFrom (sampleNamedV0.writeTo [])
        (sampleNamedV0.writeTo []).length).val.ThrottleTime = 2 ∧
    ((deleteTopicsResponse.fresh v1).readFrom (sampleNamedV0.writeTo [])
        (sampleNamedV0.writeTo []).length).err ≠ none :=
  ⟨rfl, (v1_reader_on_v0_bytes sampleNamedV0 rfl).1.trans (by decide),
    (v1_reader_on_v0_bytes sampleNamedV0 rfl).2.2 { Topic := topicT1, ErrorCode := 0 }
      [{ Topic := topicT2, ErrorCode := 3 }] rfl (by decide) (by decide) (by decide)⟩

end Kafka
